import Mathlib

/-!
# hornet: participation collection codec and event status

A shallow embedding of `pkg/model/participation/participations.go` and
`pkg/model/participation/status.go`.

Bytes are natural numbers below 256, byte strings are `List Nat`.  A Go method
that mutates its receiver returns the new receiver next to its results.  The
fluent `serializer.Serializer` / `serializer.Deserializer` chains of the source
are kept as chains over explicit builder states.  The encoding of one single
record (binary and JSON) is external to both files and enters as a
`RecordCodec`; the text layer of `encoding/json` for the wrapper object enters
as a `WrapperJSON`.  The digest of `crypto/sha256` is a function argument of
`EventStatus`, and the bytes written to the hash are threaded through its
loops.  The two balance lookups are reads of an external store: `EventStatus`
is embedded once as a function of their results and once more with each call
recorded in a log.  The elements of the JSON wrapper are pointers, and a call
that dereferences one ends in an `Outcome`: it returns, or it panics on the nil
pointer.
-/

namespace participation

set_option linter.dupNamespace false

/-! ## Data model -/

/-- Event identifier: the bytes of the fixed-size array; equality is byte equality. -/
abbrev EventID := List Nat

/-- Modelled from the spec: the `Participation` record, declared outside the two
source files: the event it targets and an opaque answer payload. -/
structure Participation where
  EventID : EventID
  Answers : List Nat
  deriving DecidableEq, Repr

/-- A value of the interface `serializer.Serializable`: a `*Participation`, or a
value of some other concrete type (the `default:` arm of the type switches). -/
inductive Serializable where
  | participation (p : Participation)
  | other (tag : Nat)
  deriving DecidableEq, Repr

/-- The slice type `serializer.Serializables`. -/
abbrev Serializables := List Serializable

/-- Errors.  `unableToSerialize`, `unableToDeserialize` and `pos` are the three
`fmt.Errorf("...: %w", err)` wrappers of the source; `external` is an error
reported by a collaborator (a record codec, the JSON library, the balance
store). -/
inductive Error where
  | ErrMultipleEventParticipation
  | invalidParticipationType
  | ErrArrayValidationMinElementsNotReached (min count : Nat)
  | ErrArrayValidationMaxElementsExceeded (max count : Nat)
  | ErrDeserializationNotEnoughData
  | ErrEventNotFound
  | external (code : Nat)
  | unableToSerialize (cause : Error)
  | unableToDeserialize (cause : Error)
  | pos (i : Nat) (cause : Error)
  deriving DecidableEq, Repr

/-- Bit set `serializer.DeSerializationMode`. -/
abbrev DeSerializationMode := Nat

def DeSeriModeNoValidation : DeSerializationMode := 0

def DeSeriModePerformValidation : DeSerializationMode := 1

/-- The library test `sm.HasMode(mode)`: the two bit sets intersect. -/
def HasMode (sm mode : DeSerializationMode) : Bool :=
  decide (0 < sm &&& mode)

/-- The contract of one record, external to the collection codec: the
`Serialize` / `MarshalJSON` methods of a `Serializable` and the
`Deserialize` / `UnmarshalJSON` methods of a fresh `&Participation{}`
(`Deserialize` also reports the number of bytes it read). -/
structure RecordCodec where
  Serialize : Serializable → DeSerializationMode → Except Error (List Nat)
  Deserialize : List Nat → DeSerializationMode → Except Error (Participation × Nat)
  MarshalJSON : Serializable → Except Error (List Nat)
  UnmarshalJSON : List Nat → Except Error Participation

/-- Participations holds the participation for multiple events. -/
structure Participations where
  Participations : Serializables
  deriving DecidableEq, Repr

def ParticipationsMinParticipationCount : Nat := 1

def ParticipationsMaxParticipationCount : Nat := 255

/-- The library type `serializer.ArrayRules` (`ValidationMode` 0 is
`ArrayValidationModeNone`). -/
structure ArrayRules where
  Min : Nat
  Max : Nat
  ValidationMode : Nat

def participationsArrayRules : ArrayRules :=
  { Min := ParticipationsMinParticipationCount
    Max := ParticipationsMaxParticipationCount
    ValidationMode := 0 }

/-- Modelled from the spec: `ArrayRules.CheckBounds` of the serializer library,
absent from the source files: a count below `Min` or above `Max` is a bounds
error (a bound of 0 is not enforced). -/
def ArrayRules.CheckBounds (ar : ArrayRules) (count : Nat) : Option Error :=
  if ar.Min ≠ 0 ∧ count < ar.Min then
    some (.ErrArrayValidationMinElementsNotReached ar.Min count)
  else if ar.Max ≠ 0 ∧ ar.Max < count then
    some (.ErrArrayValidationMaxElementsExceeded ar.Max count)
  else none

/-- The loop both `AbortIf` closures run over `p.Participations`, with the
`seenEvents` map as the list of the keys inserted so far. -/
def seenEventsLoop : Serializables → List EventID → Option Error
  | [], _ => none
  | .participation participation :: rest, seenEvents =>
    if participation.EventID ∈ seenEvents then some .ErrMultipleEventParticipation
    else seenEventsLoop rest (participation.EventID :: seenEvents)
  | .other _ :: _, _ => some .invalidParticipationType

/-! ## The serializer library: write side -/

/-- Builder state of `serializer.Serializer`: the buffer and the sticky error. -/
structure Serializer where
  buf : List Nat
  err : Option Error

def NewSerializer : Serializer := { buf := [], err := none }

/-- Modelled from the spec: `Serializer.AbortIf`, absent from the source files:
runs the check unless an error is already recorded. -/
def Serializer.AbortIf (s : Serializer) (errProducer : Unit → Option Error) : Serializer :=
  match s.err with
  | some _ => s
  | none =>
    match errProducer () with
    | some e => { s with err := some e }
    | none => s

/-- The element loop of `WriteSliceOfObjects`: each record is encoded by its own
`Serialize` and appended to the buffer; the first failure stops the loop. -/
def writeObjects (codec : RecordCodec) (deSeriMode : DeSerializationMode)
    (errProducer : Error → Error) : Serializables → List Nat → Except Error (List Nat)
  | [], buf => .ok buf
  | seri :: rest, buf =>
    match codec.Serialize seri deSeriMode with
    | .error e => .error (errProducer e)
    | .ok ser => writeObjects codec deSeriMode errProducer rest (buf ++ ser)

/-- Modelled from the spec: `Serializer.WriteSliceOfObjects` with the length
prefix type `SeriLengthPrefixTypeAsByte`, absent from the source files: the
count as one byte, then each record. -/
def Serializer.WriteSliceOfObjects (codec : RecordCodec) (s : Serializer)
    (seris : Serializables) (deSeriMode : DeSerializationMode)
    (errProducer : Error → Error) : Serializer :=
  match s.err with
  | some _ => s
  | none =>
    match writeObjects codec deSeriMode errProducer seris (s.buf ++ [seris.length % 256]) with
    | .error e => { s with err := some e }
    | .ok buf => { s with buf := buf }

/-- Modelled from the spec: `Serializer.Serialize`, absent from the source
files: the recorded error and no bytes, or else the buffer. -/
def Serializer.Serialize (s : Serializer) : Except Error (List Nat) :=
  match s.err with
  | some e => .error e
  | none => .ok s.buf

/-! ## The serializer library: read side -/

/-- Builder state of `serializer.Deserializer`. -/
structure Deserializer where
  data : List Nat
  offset : Nat
  err : Option Error

def NewDeserializer (data : List Nat) : Deserializer :=
  { data := data, offset := 0, err := none }

/-- The element loop of `ReadSliceOfObjects`: with no type denotation the
selector yields a fresh `&Participation{}` each time, which decodes itself from
the remaining bytes and reports how many it read. -/
def readObjects (codec : RecordCodec) (deSeriMode : DeSerializationMode) (data : List Nat) :
    Nat → Nat → Serializables → Except Error (Serializables × Nat)
  | 0, offset, seris => .ok (seris, offset)
  | n + 1, offset, seris =>
    match codec.Deserialize (data.drop offset) deSeriMode with
    | .error e => .error e
    | .ok (p, bytesRead) =>
      readObjects codec deSeriMode data n (offset + bytesRead) (seris ++ [.participation p])

/-- Modelled from the spec: `Deserializer.ReadSliceOfObjects` with
`SeriLengthPrefixTypeAsByte` and `TypeDenotationNone`, absent from the source
files: one count byte, the bounds check when validating, then that many
records.  The second component is the slice handed to the consumer callback;
the callback runs only when the whole slice was read. -/
def Deserializer.ReadSliceOfObjects (codec : RecordCodec) (d : Deserializer)
    (deSeriMode : DeSerializationMode) (arrayRules : ArrayRules)
    (errProducer : Error → Error) : Deserializer × Option Serializables :=
  match d.err with
  | some _ => (d, none)
  | none =>
    match d.data.drop d.offset with
    | [] => ({ d with err := some (errProducer .ErrDeserializationNotEnoughData) }, none)
    | sliceLength :: _ =>
      match (if HasMode deSeriMode DeSeriModePerformValidation
             then arrayRules.CheckBounds sliceLength else none) with
      | some e => ({ d with err := some (errProducer e) }, none)
      | none =>
        match readObjects codec deSeriMode d.data sliceLength (d.offset + 1) [] with
        | .error e => ({ d with err := some (errProducer e) }, none)
        | .ok (seris, offset) => ({ d with offset := offset }, some seris)

/-- Modelled from the spec: `Deserializer.AbortIf`, absent from the source
files. -/
def Deserializer.AbortIf (d : Deserializer) (errProducer : Unit → Option Error) : Deserializer :=
  match d.err with
  | some _ => d
  | none =>
    match errProducer () with
    | some e => { d with err := some e }
    | none => d

/-- Modelled from the spec: `Deserializer.Done`, absent from the source files:
the bytes read and the recorded error. -/
def Deserializer.Done (d : Deserializer) : Nat × Option Error :=
  (d.offset, d.err)

/-! ## participations.go -/

/-- `Participations.Deserialize`: the receiver after the call, the number of
bytes read, and the error. -/
def Participations.Deserialize (codec : RecordCodec) (p : participation.Participations)
    (data : List Nat)
    (deSeriMode : DeSerializationMode) : participation.Participations × Nat × Option Error :=
  let r := (NewDeserializer data).ReadSliceOfObjects codec deSeriMode participationsArrayRules
    .unableToDeserialize
  let p1 : participation.Participations :=
    match r.2 with
    | some seri => { Participations := seri }
    | none => p
  let d := r.1.AbortIf fun _ =>
    if HasMode deSeriMode DeSeriModePerformValidation then
      seenEventsLoop p1.Participations []
    else none
  (p1, d.Done)

/-- `Participations.Serialize`. -/
def Participations.Serialize (codec : RecordCodec) (p : participation.Participations)
    (deSeriMode : DeSerializationMode) : Except Error (List Nat) :=
  ((NewSerializer.AbortIf fun _ =>
      if HasMode deSeriMode DeSeriModePerformValidation then
        match participationsArrayRules.CheckBounds p.Participations.length with
        | some err => some (.unableToSerialize err)
        | none => seenEventsLoop p.Participations []
      else none).WriteSliceOfObjects codec p.Participations deSeriMode
    .unableToSerialize).Serialize

/-- How a call ends: it returns a value, or it panics on the dereference of a nil
pointer. -/
inductive Outcome (α : Type) where
  | returns (value : α)
  | nilPointerPanic
  deriving DecidableEq, Repr

/-- The JSON representation of Participations: the single key `participations`
holds the elements, each a `*json.RawMessage`: `some m` points to the raw
message with the bytes `m`, `none` is the nil pointer, which is what a JSON
`null` element decodes to. -/
structure jsonParticipations where
  Participations : List (Option (List Nat))
  deriving DecidableEq, Repr

/-- The text layer of `encoding/json` on the wrapper object, external to the
source files: `json.Marshal(j)` and `json.Unmarshal(bytes, j)` into a fresh
wrapper. -/
structure WrapperJSON where
  Marshal : jsonParticipations → Except Error (List Nat)
  Unmarshal : List Nat → Except Error jsonParticipations

/-- The library method `json.RawMessage.MarshalJSON`, called on an element of the
wrapper as `ele.MarshalJSON()`: it has a value receiver, so the call
dereferences the pointer: on the nil pointer it panics, otherwise it returns
the message itself. -/
def RawMessage.MarshalJSON (ele : Option (List Nat)) : Outcome (Except Error (List Nat)) :=
  match ele with
  | none => .nilPointerPanic
  | some m => .returns (.ok m)

/-- The loop of `MarshalJSON`: slot `i` of `j.Participations` receives the JSON
rendering of record `i`; the first failure is returned as it is. -/
def marshalLoop (codec : RecordCodec) : Serializables → List (List Nat) →
    Except Error (List (List Nat))
  | [], raws => .ok raws
  | participation :: rest, raws =>
    match codec.MarshalJSON participation with
    | .error err => .error err
    | .ok jsonParticipation => marshalLoop codec rest (raws ++ [jsonParticipation])

/-- `Participations.MarshalJSON`: every slot of the wrapper holds the address of
a raw message, never the nil pointer. -/
def Participations.MarshalJSON (lib : WrapperJSON) (codec : RecordCodec)
    (p : participation.Participations) : Except Error (List Nat) :=
  match marshalLoop codec p.Participations [] with
  | .error err => .error err
  | .ok raws => lib.Marshal { Participations := raws.map some }

/-- The loop of `ToSerializable` from position `i` on. -/
def toSerializableLoop (codec : RecordCodec) : Nat → List (Option (List Nat)) →
    Serializables → Outcome (Except Error Serializables)
  | _, [], participations => .returns (.ok participations)
  | i, ele :: rest, participations =>
    match RawMessage.MarshalJSON ele with
    | .nilPointerPanic => .nilPointerPanic
    | .returns (.error err) => .returns (.error (.pos i err))
    | .returns (.ok rawJSON) =>
      match codec.UnmarshalJSON rawJSON with
      | .error err => .returns (.error (.pos i err))
      | .ok participation =>
        toSerializableLoop codec (i + 1) rest (participations ++ [.participation participation])

/-- `jsonParticipations.ToSerializable`. -/
def jsonParticipations.ToSerializable (codec : RecordCodec) (j : jsonParticipations) :
    Outcome (Except Error participation.Participations) :=
  match toSerializableLoop codec 0 j.Participations [] with
  | .nilPointerPanic => .nilPointerPanic
  | .returns (.error err) => .returns (.error err)
  | .returns (.ok participations) => .returns (.ok { Participations := participations })

/-- `Participations.UnmarshalJSON`: the receiver after the call, and how the call
ends: with the error it returns (`none` for nil), or with a panic. -/
def Participations.UnmarshalJSON (lib : WrapperJSON) (codec : RecordCodec)
    (p : participation.Participations) (bytes : List Nat) :
    participation.Participations × Outcome (Option Error) :=
  match lib.Unmarshal bytes with
  | .error err => (p, .returns (some err))
  | .ok j =>
    match j.ToSerializable codec with
    | .nilPointerPanic => (p, .nilPointerPanic)
    | .returns (.error err) => (p, .returns (some err))
    | .returns (.ok seri) => (seri, .returns none)

/-! ## status.go -/

/-- AnswerStatus holds the current and accumulated vote for an answer. -/
structure AnswerStatus where
  Value : Nat
  Current : Nat
  Accumulated : Nat
  deriving DecidableEq, Repr

/-- QuestionStatus holds the answers for a question. -/
structure QuestionStatus where
  Answers : List AnswerStatus
  deriving DecidableEq, Repr

/-- EventStatus holds the status of the event. -/
structure EventStatus where
  MilestoneIndex : Nat
  Status : String
  Questions : List QuestionStatus
  Checksum : String
  deriving DecidableEq, Repr

/-- Modelled from the spec: a declared answer, of which only the 1-byte value is
used. -/
structure Answer where
  Value : Nat
  deriving DecidableEq, Repr

/-- Modelled from the spec: a declared question with its declared answers in
order (`QuestionAnswers()`). -/
structure Question where
  QuestionAnswers : List Answer
  deriving DecidableEq, Repr

/-- Modelled from the spec: an event definition: its declared questions in order
(`BallotQuestions()`) and its status label as a function of the milestone index
(`Status(index)`). -/
structure Event where
  BallotQuestions : List Question
  Status : Nat → String

/-- The collaborators `EventStatus` reads through its receiver: the confirmed
milestone index of the sync manager, the event store and the two balance
lookups (event, question index, answer value). -/
structure ParticipationManager where
  ConfirmedMilestoneIndex : Nat
  Event : EventID → Option Event
  CurrentBallotVoteBalanceForQuestionAndAnswer : EventID → Nat → Nat → Except Error Nat
  AccumulatedBallotVoteBalanceForQuestionAndAnswer : EventID → Nat → Nat → Except Error Nat

/-- Modelled from the spec: the answer value of a skipped question. -/
def AnswerValueSkipped : Nat := 0

/-- Modelled from the spec: the answer value of an invalid vote. -/
def AnswerValueInvalid : Nat := 255

/-- The 8 bytes `binary.Write(_, binary.LittleEndian, v)` emits for a `uint64`. -/
def le64 (v : Nat) : List Nat :=
  (List.range 8).map fun i => v / 256 ^ i % 256

/-- The library function `hex.EncodeToString`. -/
def hexEncodeToString (bytes : List Nat) : String :=
  String.mk (bytes.flatMap fun b => [Nat.digitChar (b / 16 % 16), Nat.digitChar (b % 16)])

/-- The closure `balanceForAnswerValue` of one question: the two lookups, then
the three writes to `statusHash`, whose written bytes are threaded through. -/
def balanceForAnswerValue (pm : ParticipationManager) (eventID : EventID)
    (questionIndex answerValue : Nat) (statusHash : List Nat) :
    Except Error (AnswerStatus × List Nat) :=
  match pm.CurrentBallotVoteBalanceForQuestionAndAnswer eventID questionIndex answerValue with
  | .error err => .error err
  | .ok currentBalance =>
    match pm.AccumulatedBallotVoteBalanceForQuestionAndAnswer eventID questionIndex
        answerValue with
    | .error err => .error err
    | .ok accumulatedBalance =>
      .ok ({ Value := answerValue, Current := currentBalance, Accumulated := accumulatedBalance },
        statusHash ++ [answerValue % 256] ++ le64 currentBalance ++ le64 accumulatedBalance)

/-- The loop "Add valid answer values" of one question. -/
def validAnswersLoop (pm : ParticipationManager) (eventID : EventID) (questionIndex : Nat) :
    List Answer → QuestionStatus → List Nat → Except Error (QuestionStatus × List Nat)
  | [], questionStatus, statusHash => .ok (questionStatus, statusHash)
  | answer :: rest, questionStatus, statusHash =>
    match balanceForAnswerValue pm eventID questionIndex answer.Value statusHash with
    | .error err => .error err
    | .ok (status, h) =>
      validAnswersLoop pm eventID questionIndex rest
        { Answers := questionStatus.Answers ++ [status] } h

/-- The loop of `EventStatus` over the questions, from position `idx` on. -/
def questionsLoop (pm : ParticipationManager) (eventID : EventID) :
    Nat → List Question → List QuestionStatus → List Nat →
    Except Error (List QuestionStatus × List Nat)
  | _, [], questions, statusHash => .ok (questions, statusHash)
  | idx, question :: rest, questions, statusHash =>
    let questionIndex := idx % 256
    match validAnswersLoop pm eventID questionIndex question.QuestionAnswers
        { Answers := [] } (statusHash ++ [questionIndex]) with
    | .error err => .error err
    | .ok (questionStatus, h1) =>
      match balanceForAnswerValue pm eventID questionIndex AnswerValueSkipped h1 with
      | .error err => .error err
      | .ok (skippedValue, h2) =>
        match balanceForAnswerValue pm eventID questionIndex AnswerValueInvalid h2 with
        | .error err => .error err
        | .ok (invalidValue, h3) =>
          questionsLoop pm eventID (idx + 1) rest
            (questions ++ [{ Answers := questionStatus.Answers ++ [skippedValue] ++
              [invalidValue] }]) h3

/-- `ParticipationManager.EventStatus`; `sha256` is the digest function of
`crypto/sha256`. -/
def ParticipationManager.EventStatus (sha256 : List Nat → List Nat) (pm : ParticipationManager)
    (eventID : EventID) : Except Error EventStatus :=
  let confirmedMilestoneIndex := pm.ConfirmedMilestoneIndex
  match pm.Event eventID with
  | none => .error .ErrEventNotFound
  | some event =>
    match questionsLoop pm eventID 0 event.BallotQuestions [] [] with
    | .error err => .error err
    | .ok (questions, statusHash) =>
      .ok { MilestoneIndex := confirmedMilestoneIndex
            Status := event.Status confirmedMilestoneIndex
            Questions := questions
            Checksum := hexEncodeToString (sha256 statusHash) }

/-- The loop of `StatusForAnswerValue`. -/
def statusForAnswerValueLoop (answerValue : Nat) : List AnswerStatus → Option AnswerStatus
  | [] => none
  | a :: rest => if a.Value = answerValue then some a else statusForAnswerValueLoop answerValue rest

/-- `QuestionStatus.StatusForAnswerValue`. -/
def QuestionStatus.StatusForAnswerValue (q : QuestionStatus) (answerValue : Nat) :
    Option AnswerStatus :=
  statusForAnswerValueLoop answerValue q.Answers

/-! ## status.go, with the balance lookups recorded

The same code once more, with every call of the two balance lookups appended
to a log in call order, so that statements about which lookups a computation
makes can be made.  Dropping the log gives the definitions above
(`EventStatusLogged_fst`). -/

/-- One call of a balance lookup for the event at hand: the lookup called, the
question index and the answer value passed. -/
inductive Lookup where
  | current (questionIndex answerValue : Nat)
  | accumulated (questionIndex answerValue : Nat)
  deriving DecidableEq, Repr

/-- The closure `balanceForAnswerValue`, logging its lookups. -/
def balanceForAnswerValueLogged (pm : ParticipationManager) (eventID : EventID)
    (questionIndex answerValue : Nat) (statusHash : List Nat) (log : List Lookup) :
    Except Error (AnswerStatus × List Nat) × List Lookup :=
  match pm.CurrentBallotVoteBalanceForQuestionAndAnswer eventID questionIndex answerValue with
  | .error err => (.error err, log ++ [.current questionIndex answerValue])
  | .ok currentBalance =>
    match pm.AccumulatedBallotVoteBalanceForQuestionAndAnswer eventID questionIndex
        answerValue with
    | .error err =>
      (.error err,
        log ++ [.current questionIndex answerValue, .accumulated questionIndex answerValue])
    | .ok accumulatedBalance =>
      (.ok ({ Value := answerValue, Current := currentBalance,
              Accumulated := accumulatedBalance },
          statusHash ++ [answerValue % 256] ++ le64 currentBalance ++ le64 accumulatedBalance),
        log ++ [.current questionIndex answerValue, .accumulated questionIndex answerValue])

/-- The loop "Add valid answer values", logging its lookups. -/
def validAnswersLoopLogged (pm : ParticipationManager) (eventID : EventID)
    (questionIndex : Nat) : List Answer → QuestionStatus → List Nat → List Lookup →
    Except Error (QuestionStatus × List Nat) × List Lookup
  | [], questionStatus, statusHash, log => (.ok (questionStatus, statusHash), log)
  | answer :: rest, questionStatus, statusHash, log =>
    match balanceForAnswerValueLogged pm eventID questionIndex answer.Value statusHash log with
    | (.error err, log1) => (.error err, log1)
    | (.ok (status, h), log1) =>
      validAnswersLoopLogged pm eventID questionIndex rest
        { Answers := questionStatus.Answers ++ [status] } h log1

/-- The loop of `EventStatus` over the questions, logging its lookups. -/
def questionsLoopLogged (pm : ParticipationManager) (eventID : EventID) :
    Nat → List Question → List QuestionStatus → List Nat → List Lookup →
    Except Error (List QuestionStatus × List Nat) × List Lookup
  | _, [], questions, statusHash, log => (.ok (questions, statusHash), log)
  | idx, question :: rest, questions, statusHash, log =>
    let questionIndex := idx % 256
    match validAnswersLoopLogged pm eventID questionIndex question.QuestionAnswers
        { Answers := [] } (statusHash ++ [questionIndex]) log with
    | (.error err, log1) => (.error err, log1)
    | (.ok (questionStatus, h1), log1) =>
      match balanceForAnswerValueLogged pm eventID questionIndex AnswerValueSkipped h1 log1 with
      | (.error err, log2) => (.error err, log2)
      | (.ok (skippedValue, h2), log2) =>
        match balanceForAnswerValueLogged pm eventID questionIndex AnswerValueInvalid h2
            log2 with
        | (.error err, log3) => (.error err, log3)
        | (.ok (invalidValue, h3), log3) =>
          questionsLoopLogged pm eventID (idx + 1) rest
            (questions ++ [{ Answers := questionStatus.Answers ++ [skippedValue] ++
              [invalidValue] }]) h3 log3

/-- `ParticipationManager.EventStatus`, with the log of the balance lookups it
made. -/
def ParticipationManager.EventStatusLogged (sha256 : List Nat → List Nat)
    (pm : ParticipationManager) (eventID : EventID) :
    Except Error participation.EventStatus × List Lookup :=
  let confirmedMilestoneIndex := pm.ConfirmedMilestoneIndex
  match pm.Event eventID with
  | none => (.error .ErrEventNotFound, [])
  | some event =>
    match questionsLoopLogged pm eventID 0 event.BallotQuestions [] [] [] with
    | (.error err, log) => (.error err, log)
    | (.ok (questions, statusHash), log) =>
      (.ok { MilestoneIndex := confirmedMilestoneIndex
             Status := event.Status confirmedMilestoneIndex
             Questions := questions
             Checksum := hexEncodeToString (sha256 statusHash) }, log)

/-! ## Small collaborators for evaluating the definitions on concrete inputs -/

/-- A small record codec: the event identifier is a single byte and the answers
follow a length byte, so more than 255 answers cannot be encoded; the JSON
rendering of a record with one answer is the two bytes. -/
def demoCodec : RecordCodec where
  Serialize := fun s _ =>
    match s with
    | .participation ⟨[e], answers⟩ =>
      if answers.length ≤ 255 then .ok (e :: answers.length :: answers)
      else .error (.external 1)
    | _ => .error (.external 2)
  Deserialize := fun data _ =>
    match data with
    | e :: n :: rest =>
      if n ≤ rest.length then .ok (⟨[e], rest.take n⟩, n + 2)
      else .error .ErrDeserializationNotEnoughData
    | _ => .error .ErrDeserializationNotEnoughData
  MarshalJSON := fun s =>
    match s with
    | .participation ⟨[e], [a]⟩ => .ok [e, a]
    | _ => .error (.external 3)
  UnmarshalJSON := fun raw =>
    match raw with
    | [e, a] => .ok ⟨[e], [a]⟩
    | _ => .error (.external 4)

/-- Splits a byte string into elements: a raw message is preceded by its length,
the byte 0 stands for a `null` element. -/
def demoChunks : Nat → List Nat → Option (List (Option (List Nat)))
  | _, [] => some []
  | 0, _ :: _ => none
  | fuel + 1, 0 :: rest => (demoChunks fuel rest).map fun eles => none :: eles
  | fuel + 1, (n + 1) :: rest =>
    if n + 1 ≤ rest.length then
      (demoChunks fuel (rest.drop (n + 1))).map fun eles => some (rest.take (n + 1)) :: eles
    else none

/-- A small text layer for the wrapper: every raw message preceded by its
length, the nil pointer written as the byte 0. -/
def demoJSON : WrapperJSON where
  Marshal := fun j => .ok (j.Participations.flatMap fun ele =>
    match ele with
    | none => [0]
    | some raw => raw.length :: raw)
  Unmarshal := fun bytes =>
    match demoChunks bytes.length bytes with
    | some eles => .ok { Participations := eles }
    | none => .error (.external 5)

/-- A small manager: event `[1]` declares 257 questions without answers, event
`[2]` declares one question with the answers 1 and 2; the current balance the
store returns is the question index it is asked for plus ten times the answer
value, the accumulated balance is the answer value. -/
def demoManager : ParticipationManager where
  ConfirmedMilestoneIndex := 5
  Event := fun eventID =>
    if eventID = [1] then
      some { BallotQuestions := List.replicate 257 ⟨[]⟩, Status := fun _ => "holding" }
    else if eventID = [2] then
      some { BallotQuestions := [⟨[⟨1⟩, ⟨2⟩]⟩], Status := fun _ => "holding" }
    else none
  CurrentBallotVoteBalanceForQuestionAndAnswer := fun _ questionIndex answerValue =>
    .ok (questionIndex + 10 * answerValue)
  AccumulatedBallotVoteBalanceForQuestionAndAnswer := fun _ _ answerValue => .ok answerValue

/-- The manager `demoManager` with every current balance raised by one. -/
def demoManagerShifted : ParticipationManager :=
  { demoManager with
    CurrentBallotVoteBalanceForQuestionAndAnswer := fun _ questionIndex answerValue =>
      .ok (questionIndex + 10 * answerValue + 1) }

/-- The manager `demoManager` with a store whose accumulated lookup fails for the
answer value 2. -/
def demoManagerFailing : ParticipationManager :=
  { demoManager with
    AccumulatedBallotVoteBalanceForQuestionAndAnswer := fun _ _ answerValue =>
      if answerValue = 2 then .error (.external 7) else .ok answerValue }

/-- The manager `demoManager` with an event store that knows the event of `[2]`
under every identifier. -/
def demoManagerRenamed : ParticipationManager :=
  { demoManager with
    Event := fun _ =>
      some { BallotQuestions := [⟨[⟨1⟩, ⟨2⟩]⟩], Status := fun _ => "holding" } }

/-- A stand-in digest for evaluating `EventStatus`: the first four bytes. -/
def demoDigest (bytes : List Nat) : List Nat := bytes.take 4

/-! ## Properties used by the statements -/

/-- The encoding contract of one record under a mode: it encodes, and decoding
its encoding followed by any further bytes gives the record back and reads
exactly the encoding. -/
def RoundTrips (codec : RecordCodec) (deSeriMode : DeSerializationMode) (p : Participation) :
    Prop :=
  ∃ b, codec.Serialize (.participation p) deSeriMode = .ok b ∧
    ∀ rest, codec.Deserialize (b ++ rest) deSeriMode = .ok (p, b.length)

/-- The collection whose records are the given participations. -/
def Participations.ofRecords (ps : List Participation) : participation.Participations :=
  { Participations := ps.map .participation }

/-- The structural stage of `Deserialize`: the slice `ReadSliceOfObjects` hands
to the consumer callback, if it gets that far. -/
def structuralDecode (codec : RecordCodec) (data : List Nat) (deSeriMode : DeSerializationMode) :
    Option Serializables :=
  ((NewDeserializer data).ReadSliceOfObjects codec deSeriMode participationsArrayRules
    .unableToDeserialize).2

/-- The answer status `a` reports the value `v` together with the current and the
accumulated balance the store returns for the event, the question index and
`v`. -/
def ReportsBalance (pm : ParticipationManager) (eventID : EventID) (questionIndex : Nat)
    (a : AnswerStatus) (v : Nat) : Prop :=
  a.Value = v ∧
    pm.CurrentBallotVoteBalanceForQuestionAndAnswer eventID questionIndex v = .ok a.Current ∧
    pm.AccumulatedBallotVoteBalanceForQuestionAndAnswer eventID questionIndex v =
      .ok a.Accumulated

/-- The answer values a question status reports on: the declared values in
declared order, then skipped, then invalid. -/
def reportedValues (question : Question) : List Nat :=
  question.QuestionAnswers.map (·.Value) ++ [AnswerValueSkipped, AnswerValueInvalid]

/-- The bytes of one answer status in the checksum input: the value as one byte,
the current balance and the accumulated balance as 8 bytes little-endian
each. -/
def answerBytes (a : AnswerStatus) : List Nat :=
  [a.Value % 256] ++ le64 a.Current ++ le64 a.Accumulated

/-- The bytes of the question status at position `idx` in the checksum input: the
position as one byte, then the bytes of its answers in order. -/
def questionBytes (idx : Nat) (qs : QuestionStatus) : List Nat :=
  [idx % 256] ++ qs.Answers.flatMap answerBytes

/-- The checksum input of the question statuses at positions `idx`, `idx + 1`,
and so on. -/
def statusBytesFrom : Nat → List QuestionStatus → List Nat
  | _, [] => []
  | idx, qs :: rest => questionBytes idx qs ++ statusBytesFrom (idx + 1) rest

/-- The checksum input the spec describes for a report. -/
def statusBytes (questions : List QuestionStatus) : List Nat :=
  statusBytesFrom 0 questions

/-- The result of one balance lookup. -/
def Lookup.run (pm : ParticipationManager) (eventID : EventID) : Lookup → Except Error Nat
  | .current questionIndex answerValue =>
    pm.CurrentBallotVoteBalanceForQuestionAndAnswer eventID questionIndex answerValue
  | .accumulated questionIndex answerValue =>
    pm.AccumulatedBallotVoteBalanceForQuestionAndAnswer eventID questionIndex answerValue

/-- The traversal order of the lookups of one question under a question index:
per reported value the current lookup, then the accumulated one. -/
def lookupOrderOfQuestion (questionIndex : Nat) (question : Question) : List Lookup :=
  (reportedValues question).flatMap fun v =>
    [.current questionIndex v, .accumulated questionIndex v]

/-- The traversal order of the lookups of the questions at positions `idx`,
`idx + 1`, and so on. -/
def lookupOrderFrom : Nat → List Question → List Lookup
  | _, [] => []
  | idx, question :: rest =>
    lookupOrderOfQuestion (idx % 256) question ++ lookupOrderFrom (idx + 1) rest

/-- The traversal order of all lookups of an event. -/
def lookupOrder (event : Event) : List Lookup :=
  lookupOrderFrom 0 event.BallotQuestions

/-- The error of the first lookup of the list that fails, if one does. -/
def firstFailure (pm : ParticipationManager) (eventID : EventID) : List Lookup → Option Error
  | [] => none
  | l :: rest =>
    match l.run pm eventID with
    | .error err => some err
    | .ok _ => firstFailure pm eventID rest

/-- The lookups of the list up to and including the first one that fails. -/
def lookupsUntilFailure (pm : ParticipationManager) (eventID : EventID) :
    List Lookup → List Lookup
  | [] => []
  | l :: rest =>
    match l.run pm eventID with
    | .error _ => [l]
    | .ok _ => l :: lookupsUntilFailure pm eventID rest

/-- The error of a result, if it is one. -/
def errorOf {α : Type} : Except Error α → Option Error
  | .error err => some err
  | .ok _ => none

/-- The balances of a report are values of the type `uint64`. -/
def BalancesFit (questions : List QuestionStatus) : Prop :=
  ∀ qs ∈ questions, ∀ a ∈ qs.Answers, a.Current < 2 ^ 64 ∧ a.Accumulated < 2 ^ 64

/-! ## Lemmas on the binary codec -/

theorem writeObjects_eq_ok (codec : RecordCodec) (mode : DeSerializationMode)
    (ep : Error → Error) : ∀ (x : Serializables) (buf b : List Nat),
    writeObjects codec mode ep x buf = .ok b ↔
      ∃ encs, List.Forall₂ (fun s e => codec.Serialize s mode = .ok e) x encs ∧
        b = buf ++ encs.flatten
  | [], buf, b => by
    simp [writeObjects, eq_comm]
  | s :: rest, buf, b => by
    simp only [writeObjects]
    cases h : codec.Serialize s mode with
    | error e => simp [List.forall₂_cons_left_iff, h]
    | ok ser =>
      simp only [writeObjects_eq_ok codec mode ep rest, List.forall₂_cons_left_iff, h,
        Except.ok.injEq]
      constructor
      · rintro ⟨encs, hf, rfl⟩
        exact ⟨ser :: encs, ⟨ser, encs, rfl, hf, rfl⟩, by simp⟩
      · rintro ⟨_, ⟨e, encs, rfl, hf, rfl⟩, rfl⟩
        exact ⟨encs, hf, by simp⟩

theorem Serialize_validated (codec : RecordCodec) (p : participation.Participations)
    (mode : DeSerializationMode) (hv : HasMode mode DeSeriModePerformValidation = true) :
    Participations.Serialize codec p mode =
      match participationsArrayRules.CheckBounds p.Participations.length with
      | some err => .error (.unableToSerialize err)
      | none =>
        match seenEventsLoop p.Participations [] with
        | some err => .error err
        | none =>
          writeObjects codec mode .unableToSerialize p.Participations
            [p.Participations.length % 256] := by
  simp only [Participations.Serialize, hv, if_true, Serializer.AbortIf, NewSerializer,
    Serializer.WriteSliceOfObjects, Serializer.Serialize]
  cases participationsArrayRules.CheckBounds p.Participations.length with
  | some err => rfl
  | none =>
    cases seenEventsLoop p.Participations [] with
    | some err => rfl
    | none =>
      simp only [List.nil_append]
      cases writeObjects codec mode .unableToSerialize p.Participations
        [p.Participations.length % 256] <;> rfl

theorem Serialize_unvalidated (codec : RecordCodec) (p : participation.Participations)
    (mode : DeSerializationMode) (hv : HasMode mode DeSeriModePerformValidation = false) :
    Participations.Serialize codec p mode =
      writeObjects codec mode .unableToSerialize p.Participations
        [p.Participations.length % 256] := by
  simp only [Participations.Serialize, hv, Bool.false_eq_true, if_false, Serializer.AbortIf,
    NewSerializer, Serializer.WriteSliceOfObjects, Serializer.Serialize, List.nil_append]
  generalize writeObjects codec mode .unableToSerialize p.Participations
    [p.Participations.length % 256] = r
  cases r <;> rfl

theorem checkBounds_eq_none (n : Nat) :
    participationsArrayRules.CheckBounds n = none ↔ 1 ≤ n ∧ n ≤ 255 := by
  simp only [ArrayRules.CheckBounds, participationsArrayRules,
    ParticipationsMinParticipationCount, ParticipationsMaxParticipationCount]
  split_ifs <;> simp <;> omega

theorem seenEventsLoop_records (ps : List Participation) : ∀ (seen : List EventID),
    seenEventsLoop (ps.map .participation) seen =
      if (ps.map (·.EventID)).Nodup ∧ ∀ p ∈ ps, p.EventID ∉ seen then none
      else some .ErrMultipleEventParticipation := by
  induction ps with
  | nil => intro seen; simp [seenEventsLoop]
  | cons p rest ih =>
    intro seen
    simp only [List.map_cons, seenEventsLoop, ih]
    by_cases h : p.EventID ∈ seen
    · simp [h]
    · simp only [h, if_false, List.nodup_cons, List.mem_cons, List.mem_map, forall_eq_or_imp,
        not_false_eq_true, true_and, not_or, not_exists, not_and]
      congr 1
      apply propext
      constructor
      · rintro ⟨hn, hall⟩
        exact ⟨⟨fun q hq he => (hall q hq).1 he, hn⟩, fun q hq => (hall q hq).2⟩
      · rintro ⟨⟨hp, hn⟩, hall⟩
        exact ⟨hn, fun q hq => ⟨fun he => hp q hq he, hall q hq⟩⟩

theorem readObjects_encoded (codec : RecordCodec) (mode : DeSerializationMode)
    (tail : List Nat) {ps : List Participation} {encs : List (List Nat)}
    (h : List.Forall₂
      (fun p e => ∀ rest, codec.Deserialize (e ++ rest) mode = .ok (p, e.length)) ps encs) :
    ∀ (pre : List Nat) (acc : Serializables),
      readObjects codec mode (pre ++ encs.flatten ++ tail) ps.length pre.length acc =
        .ok (acc ++ ps.map .participation, pre.length + encs.flatten.length) := by
  induction h with
  | nil => intro pre acc; simp [readObjects]
  | @cons p e ps encs hp _ ih =>
    intro pre acc
    have hdrop : (pre ++ (e :: encs).flatten ++ tail).drop pre.length =
        e ++ (encs.flatten ++ tail) := by
      simp [List.append_assoc]
    have hdata : pre ++ (e :: encs).flatten ++ tail = (pre ++ e) ++ encs.flatten ++ tail := by
      simp [List.append_assoc]
    simp only [List.length_cons, readObjects, hdrop, hp]
    rw [hdata, ← List.length_append]
    refine (ih (pre ++ e) (acc ++ [.participation p])).trans ?_
    simp [List.append_assoc, Nat.add_assoc]

theorem readObjects_records (codec : RecordCodec) (mode : DeSerializationMode)
    (data : List Nat) : ∀ (n offset : Nat) (acc x : Serializables) (off : Nat),
    readObjects codec mode data n offset acc = .ok (x, off) →
      ∃ ps : List Participation, x = acc ++ ps.map .participation ∧ ps.length = n
  | 0, offset, acc, x, off, h => by
    simp only [readObjects, Except.ok.injEq, Prod.mk.injEq] at h
    exact ⟨[], by simp [h.1]⟩
  | n + 1, offset, acc, x, off, h => by
    simp only [readObjects] at h
    cases hd : codec.Deserialize (data.drop offset) mode with
    | error e => simp [hd] at h
    | ok r =>
      obtain ⟨p, k⟩ := r
      simp only [hd] at h
      obtain ⟨ps, rfl, hl⟩ := readObjects_records codec mode data n _ _ _ _ h
      exact ⟨p :: ps, by simp [List.append_assoc], by simp [hl]⟩

theorem roundTrips_encodings (codec : RecordCodec) (mode : DeSerializationMode) :
    ∀ (ps : List Participation), (∀ p ∈ ps, RoundTrips codec mode p) →
      ∃ encs, List.Forall₂ (fun p e => codec.Serialize (.participation p) mode = .ok e ∧
        ∀ rest, codec.Deserialize (e ++ rest) mode = .ok (p, e.length)) ps encs
  | [], _ => ⟨[], List.Forall₂.nil⟩
  | p :: ps, h => by
    obtain ⟨e, he⟩ := h p (List.mem_cons_self _ _)
    obtain ⟨encs, hencs⟩ :=
      roundTrips_encodings codec mode ps fun q hq => h q (List.mem_cons_of_mem _ hq)
    exact ⟨e :: encs, List.Forall₂.cons he hencs⟩

/-- What `Deserialize` returns once the outcome of the structural stage is
known. -/
theorem Deserialize_structural (codec : RecordCodec) (p : participation.Participations)
    (data : List Nat) (mode : DeSerializationMode) :
    (∃ x, structuralDecode codec data mode = some x ∧
      (Participations.Deserialize codec p data mode).1 = { Participations := x } ∧
      (Participations.Deserialize codec p data mode).2.2 =
        (if HasMode mode DeSeriModePerformValidation then seenEventsLoop x [] else none) ∧
      ∃ ps : List Participation, x = ps.map .participation ∧
        ∃ body, data = ps.length :: body) ∨
    (structuralDecode codec data mode = none ∧
      (Participations.Deserialize codec p data mode).1 = p ∧
      ∃ cause, (Participations.Deserialize codec p data mode).2.2 =
        some (.unableToDeserialize cause)) := by
  unfold structuralDecode Participations.Deserialize
  simp only [Deserializer.ReadSliceOfObjects, NewDeserializer, List.drop_zero]
  cases data with
  | nil => right; simp [Deserializer.AbortIf, Deserializer.Done]
  | cons n body =>
    simp only []
    cases hb : (if HasMode mode DeSeriModePerformValidation = true
        then participationsArrayRules.CheckBounds n else none) with
    | some e => right; simp [Deserializer.AbortIf, Deserializer.Done]
    | none =>
      simp only []
      cases hr : readObjects codec mode (n :: body) n (0 + 1) [] with
      | error e => right; simp [Deserializer.AbortIf, Deserializer.Done]
      | ok r =>
        obtain ⟨x, off⟩ := r
        left
        obtain ⟨ps, hx, hl⟩ := readObjects_records codec mode _ _ _ _ _ _ hr
        refine ⟨x, rfl, rfl, ?_, ps, by simpa using hx, body, by rw [hl]⟩
        simp only [Deserializer.AbortIf, Deserializer.Done]
        split_ifs with hv
        · cases seenEventsLoop x [] <;> rfl
        · rfl

theorem Deserialize_encoded (codec : RecordCodec) (p0 : participation.Participations)
    (mode : DeSerializationMode) {ps : List Participation} {encs : List (List Nat)}
    (hdec : List.Forall₂
      (fun p e => ∀ rest, codec.Deserialize (e ++ rest) mode = .ok (p, e.length)) ps encs)
    (hb : HasMode mode DeSeriModePerformValidation = true → 1 ≤ ps.length ∧ ps.length ≤ 255) :
    Participations.Deserialize codec p0 (ps.length :: encs.flatten) mode =
      (Participations.ofRecords ps, (ps.length :: encs.flatten).length,
        if HasMode mode DeSeriModePerformValidation then
          seenEventsLoop (ps.map .participation) [] else none) := by
  have hread := readObjects_encoded codec mode [] hdec [ps.length] []
  simp only [List.append_nil, List.singleton_append, List.length_singleton,
    List.nil_append] at hread
  have hbounds : (if HasMode mode DeSeriModePerformValidation = true
      then participationsArrayRules.CheckBounds ps.length else none) = none := by
    split_ifs with hv
    · exact (checkBounds_eq_none _).2 (hb hv)
    · rfl
  unfold Participations.Deserialize
  simp only [Deserializer.ReadSliceOfObjects, NewDeserializer, List.drop_zero, hbounds,
    Nat.zero_add, hread, Deserializer.AbortIf, Deserializer.Done, Participations.ofRecords,
    List.length_cons]
  split_ifs with hv
  · cases seenEventsLoop (ps.map Serializable.participation) [] <;> simp [Nat.add_comm]
  · simp [Nat.add_comm]

theorem writeObjects_records (codec : RecordCodec) (mode : DeSerializationMode)
    {ps : List Participation} {encs : List (List Nat)}
    (henc : List.Forall₂ (fun p e => codec.Serialize (.participation p) mode = .ok e) ps encs)
    (hlen : ps.length ≤ 255) :
    writeObjects codec mode .unableToSerialize (ps.map .participation)
      [(ps.map Serializable.participation).length % 256] = .ok (ps.length :: encs.flatten) := by
  rw [writeObjects_eq_ok]
  refine ⟨encs, ?_, ?_⟩
  · rw [List.forall₂_map_left_iff]
    exact henc
  · simp [Nat.mod_eq_of_lt (show ps.length < 256 by omega)]

theorem Serialize_duplicate (codec : RecordCodec) (mode : DeSerializationMode)
    (ps : List Participation) (hv : HasMode mode DeSeriModePerformValidation = true)
    (hlen : 1 ≤ ps.length ∧ ps.length ≤ 255) (hdup : ¬ (ps.map (·.EventID)).Nodup) :
    Participations.Serialize codec (Participations.ofRecords ps) mode =
      .error .ErrMultipleEventParticipation := by
  rw [Serialize_validated codec _ mode hv]
  have hcb : participationsArrayRules.CheckBounds
      (Participations.ofRecords ps).Participations.length = none :=
    (checkBounds_eq_none _).2 (by simpa [Participations.ofRecords] using hlen)
  rw [hcb]
  simp [Participations.ofRecords, seenEventsLoop_records, hdup]

theorem Deserialize_duplicate (codec : RecordCodec) (mode : DeSerializationMode)
    (ps : List Participation) (p0 : participation.Participations) (data : List Nat)
    (hv : HasMode mode DeSeriModePerformValidation = true)
    (hdup : ¬ (ps.map (·.EventID)).Nodup)
    (hdec : structuralDecode codec data mode = some (ps.map .participation)) :
    (Participations.Deserialize codec p0 data mode).2.2 =
      some .ErrMultipleEventParticipation := by
  rcases Deserialize_structural codec p0 data mode with ⟨x, hx, -, herr, -⟩ | ⟨hnone, -⟩
  · rw [hdec] at hx
    cases hx
    rw [herr]
    simp [hv, seenEventsLoop_records, hdup]
  · rw [hdec] at hnone
    cases hnone

/-! ## Lemmas on the JSON form -/

theorem marshalLoop_ok (codec : RecordCodec) {x : Serializables} {raws : List (List Nat)}
    (h : List.Forall₂ (fun s raw => codec.MarshalJSON s = .ok raw) x raws) :
    ∀ acc, marshalLoop codec x acc = .ok (acc ++ raws) := by
  induction h with
  | nil => intro acc; simp [marshalLoop]
  | cons hs _ ih =>
    intro acc
    simp only [marshalLoop, hs, ih]
    simp [List.append_assoc]

theorem toSerializableLoop_ok (codec : RecordCodec) {eles : List (Option (List Nat))}
    {ps : List Participation}
    (h : List.Forall₂
      (fun ele p => ∃ raw, ele = some raw ∧ codec.UnmarshalJSON raw = .ok p) eles ps) :
    ∀ (i : Nat) (acc : Serializables),
      toSerializableLoop codec i eles acc = .returns (.ok (acc ++ ps.map .participation)) := by
  induction h with
  | nil => intro i acc; simp [toSerializableLoop]
  | cons hr _ ih =>
    intro i acc
    obtain ⟨raw, rfl, hraw⟩ := hr
    simp only [toSerializableLoop, RawMessage.MarshalJSON, hraw, ih]
    simp [List.append_assoc]

theorem toSerializableLoop_error (codec : RecordCodec) (bad : List Nat)
    (post : List (Option (List Nat))) (e : Error) (hbad : codec.UnmarshalJSON bad = .error e) :
    ∀ (pre : List (List Nat)), (∀ r ∈ pre, ∃ p, codec.UnmarshalJSON r = .ok p) →
      ∀ (i : Nat) (acc : Serializables),
        toSerializableLoop codec i (pre.map some ++ some bad :: post) acc =
          .returns (.error (.pos (i + pre.length) e))
  | [], _, i, acc => by
    simp [toSerializableLoop, RawMessage.MarshalJSON, hbad]
  | r :: pre, hpre, i, acc => by
    obtain ⟨p, hp⟩ := hpre r (List.mem_cons_self _ _)
    have ih := toSerializableLoop_error codec bad post e hbad pre
      (fun q hq => hpre q (List.mem_cons_of_mem _ hq)) (i + 1) (acc ++ [.participation p])
    simp only [List.map_cons, List.cons_append, toSerializableLoop, RawMessage.MarshalJSON, hp,
      List.length_cons]
    refine ih.trans ?_
    congr 3
    omega

theorem toSerializableLoop_nil (codec : RecordCodec) (post : List (Option (List Nat))) :
    ∀ (pre : List (List Nat)), (∀ r ∈ pre, ∃ p, codec.UnmarshalJSON r = .ok p) →
      ∀ (i : Nat) (acc : Serializables),
        toSerializableLoop codec i (pre.map some ++ none :: post) acc = .nilPointerPanic
  | [], _, i, acc => by
    simp [toSerializableLoop, RawMessage.MarshalJSON]
  | r :: pre, hpre, i, acc => by
    obtain ⟨p, hp⟩ := hpre r (List.mem_cons_self _ _)
    have ih := toSerializableLoop_nil codec post pre
      (fun q hq => hpre q (List.mem_cons_of_mem _ hq)) (i + 1) (acc ++ [.participation p])
    simp only [List.map_cons, List.cons_append, toSerializableLoop, RawMessage.MarshalJSON, hp]
    exact ih

/-! ## Lemmas on the event status -/

theorem balanceForAnswerValue_ok {pm : ParticipationManager} {eventID : EventID}
    {questionIndex v : Nat} {h h2 : List Nat} {a : AnswerStatus}
    (hok : balanceForAnswerValue pm eventID questionIndex v h = .ok (a, h2)) :
    ReportsBalance pm eventID questionIndex a v := by
  unfold balanceForAnswerValue at hok
  cases hc : pm.CurrentBallotVoteBalanceForQuestionAndAnswer eventID questionIndex v with
  | error err => simp [hc] at hok
  | ok c =>
    cases hacc : pm.AccumulatedBallotVoteBalanceForQuestionAndAnswer eventID questionIndex v with
    | error err => simp [hc, hacc] at hok
    | ok acc =>
      simp only [hc, hacc, Except.ok.injEq, Prod.mk.injEq] at hok
      obtain ⟨rfl, -⟩ := hok
      exact ⟨rfl, hc, hacc⟩

theorem validAnswersLoop_ok (pm : ParticipationManager) (eventID : EventID)
    (questionIndex : Nat) : ∀ (answers : List Answer) (qs : QuestionStatus) (h : List Nat)
    (qs2 : QuestionStatus) (h2 : List Nat),
    validAnswersLoop pm eventID questionIndex answers qs h = .ok (qs2, h2) →
      ∃ new, qs2.Answers = qs.Answers ++ new ∧
        List.Forall₂ (ReportsBalance pm eventID questionIndex) new (answers.map (·.Value))
  | [], qs, h, qs2, h2, hok => by
    simp only [validAnswersLoop, Except.ok.injEq, Prod.mk.injEq] at hok
    exact ⟨[], by simp [hok.1], List.Forall₂.nil⟩
  | answer :: rest, qs, h, qs2, h2, hok => by
    simp only [validAnswersLoop] at hok
    cases hb : balanceForAnswerValue pm eventID questionIndex answer.Value h with
    | error err => simp [hb] at hok
    | ok r =>
      obtain ⟨a, h1⟩ := r
      simp only [hb] at hok
      obtain ⟨new, hnew, hf⟩ := validAnswersLoop_ok pm eventID questionIndex rest _ _ _ _ hok
      exact ⟨a :: new, by simp [hnew], List.Forall₂.cons (balanceForAnswerValue_ok hb) hf⟩

theorem questionsLoop_ok (pm : ParticipationManager) (eventID : EventID) :
    ∀ (questions : List Question) (idx : Nat) (acc : List QuestionStatus) (h : List Nat)
    (acc2 : List QuestionStatus) (h2 : List Nat),
    questionsLoop pm eventID idx questions acc h = .ok (acc2, h2) →
      ∃ new, acc2 = acc ++ new ∧
        List.Forall₂ (fun (qs : QuestionStatus) (iq : Nat × Question) =>
          List.Forall₂ (ReportsBalance pm eventID (iq.1 % 256)) qs.Answers (reportedValues iq.2))
          new (questions.enumFrom idx)
  | [], idx, acc, h, acc2, h2, hok => by
    simp only [questionsLoop, Except.ok.injEq, Prod.mk.injEq] at hok
    exact ⟨[], by simp [hok.1], List.Forall₂.nil⟩
  | question :: rest, idx, acc, h, acc2, h2, hok => by
    simp only [questionsLoop] at hok
    cases hv : validAnswersLoop pm eventID (idx % 256) question.QuestionAnswers
        { Answers := [] } (h ++ [idx % 256]) with
    | error err => simp [hv] at hok
    | ok r =>
      obtain ⟨qs, h1⟩ := r
      simp only [hv] at hok
      cases hs : balanceForAnswerValue pm eventID (idx % 256) AnswerValueSkipped h1 with
      | error err => simp [hs] at hok
      | ok r2 =>
        obtain ⟨skipped, h3⟩ := r2
        simp only [hs] at hok
        cases hi : balanceForAnswerValue pm eventID (idx % 256) AnswerValueInvalid h3 with
        | error err => simp [hi] at hok
        | ok r3 =>
          obtain ⟨invalid, h4⟩ := r3
          simp only [hi] at hok
          obtain ⟨new, hnew, hf⟩ := questionsLoop_ok pm eventID rest _ _ _ _ _ hok
          obtain ⟨declared, hd, hfd⟩ := validAnswersLoop_ok pm eventID _ _ _ _ _ _ hv
          simp only [List.nil_append] at hd
          refine ⟨{ Answers := qs.Answers ++ [skipped] ++ [invalid] } :: new, by simp [hnew],
            List.Forall₂.cons ?_ hf⟩
          simp only [reportedValues, hd, List.append_assoc]
          exact List.rel_append hfd (List.Forall₂.cons (balanceForAnswerValue_ok hs)
            (List.Forall₂.cons (balanceForAnswerValue_ok hi) List.Forall₂.nil))

/-! ## The binary form -/

/-- C1. Binary round trip: a collection of 1 to 255 participations with
pairwise distinct event identifiers, each of which honours the encoding contract
of a single record, is serialized under validation to some bytes `b`, and
deserializing `b` under validation succeeds, reads exactly `b.length` bytes and
leaves the same records in the same order in the receiver. -/
theorem binary_round_trip (codec : RecordCodec) (mode : DeSerializationMode)
    (ps : List Participation) (p0 : participation.Participations)
    (hv : HasMode mode DeSeriModePerformValidation = true)
    (hlen : 1 ≤ ps.length ∧ ps.length ≤ 255)
    (hdistinct : (ps.map (·.EventID)).Nodup)
    (hrecords : ∀ p ∈ ps, RoundTrips codec mode p) :
    ∃ b, Participations.Serialize codec (Participations.ofRecords ps) mode = .ok b ∧
      Participations.Deserialize codec p0 b mode =
        (Participations.ofRecords ps, b.length, none) := by
  obtain ⟨encs, hencs⟩ := roundTrips_encodings codec mode ps hrecords
  have hloop : seenEventsLoop (ps.map Serializable.participation) [] = none := by
    rw [seenEventsLoop_records]; simp [hdistinct]
  refine ⟨ps.length :: encs.flatten, ?_, ?_⟩
  · rw [Serialize_validated codec _ mode hv]
    have hcb : participationsArrayRules.CheckBounds
        (Participations.ofRecords ps).Participations.length = none :=
      (checkBounds_eq_none _).2 (by simpa [Participations.ofRecords] using hlen)
    rw [hcb]
    simp only [Participations.ofRecords, hloop]
    exact writeObjects_records codec mode (hencs.imp fun _ _ h => h.1) hlen.2
  · rw [Deserialize_encoded codec p0 mode (hencs.imp fun _ _ h => h.2) fun _ => hlen]
    simp [hv, hloop]

theorem binary_round_trip_witness :
    ∃ b, Participations.Serialize demoCodec
        (Participations.ofRecords [⟨[7], [1]⟩, ⟨[8], []⟩]) DeSeriModePerformValidation = .ok b ∧
      Participations.Deserialize demoCodec ⟨[]⟩ b DeSeriModePerformValidation =
        (Participations.ofRecords [⟨[7], [1]⟩, ⟨[8], []⟩], b.length, none) :=
  binary_round_trip demoCodec DeSeriModePerformValidation [⟨[7], [1]⟩, ⟨[8], []⟩] ⟨[]⟩
    (by decide) (by decide) (by decide)
    (by
      intro p hp
      simp only [List.mem_cons, List.mem_singleton, List.not_mem_nil, or_false] at hp
      rcases hp with rfl | rfl
      · exact ⟨[7, 1, 1], rfl, fun rest => by simp [demoCodec]⟩
      · exact ⟨[8, 0], rfl, fun rest => by simp [demoCodec]⟩)

/-- C2. Wire layout: whenever `Serialize` succeeds on a collection of `n ≤ 255`
records, with validation or without, its output is the byte `n` followed by the
concatenation of the encodings of the records, each by its own `Serialize`, in
the order of the collection. -/
theorem serialize_wire_layout (codec : RecordCodec) (mode : DeSerializationMode)
    (x : participation.Participations) (b : List Nat)
    (hn : x.Participations.length ≤ 255)
    (hok : Participations.Serialize codec x mode = .ok b) :
    ∃ encs, List.Forall₂ (fun s e => codec.Serialize s mode = .ok e) x.Participations encs ∧
      b = x.Participations.length :: encs.flatten := by
  have hw : writeObjects codec mode .unableToSerialize x.Participations
      [x.Participations.length % 256] = .ok b := by
    cases hv : HasMode mode DeSeriModePerformValidation with
    | false => rw [← Serialize_unvalidated codec x mode hv]; exact hok
    | true =>
      rw [Serialize_validated codec x mode hv] at hok
      cases hcb : participationsArrayRules.CheckBounds x.Participations.length with
      | some e => simp [hcb] at hok
      | none =>
        cases hl : seenEventsLoop x.Participations [] with
        | some e => simp [hcb, hl] at hok
        | none => simpa [hcb, hl] using hok
  obtain ⟨encs, hf, rfl⟩ := (writeObjects_eq_ok _ _ _ _ _ _).1 hw
  exact ⟨encs, hf, by simp [Nat.mod_eq_of_lt (show x.Participations.length < 256 by omega)]⟩

theorem serialize_wire_layout_witness :
    ∃ encs, List.Forall₂ (fun s e => demoCodec.Serialize s DeSeriModeNoValidation = .ok e)
        [.participation ⟨[7], [1]⟩, .participation ⟨[7], [2, 3]⟩] encs ∧
      [2, 7, 1, 1, 7, 2, 2, 3] = 2 :: encs.flatten :=
  serialize_wire_layout demoCodec DeSeriModeNoValidation
    ⟨[.participation ⟨[7], [1]⟩, .participation ⟨[7], [2, 3]⟩]⟩ [2, 7, 1, 1, 7, 2, 2, 3]
    (by decide) (by rfl)

/-- C3. Duplicate rejection under validation: for a collection of 2 to 255
participations two of which target the same event, `Serialize` with validation
fails with `ErrMultipleEventParticipation` and returns no bytes; and for every
byte string whose structural decoding yields such a collection, `Deserialize`
with validation fails with `ErrMultipleEventParticipation`. -/
theorem duplicate_rejected_under_validation (codec : RecordCodec)
    (mode : DeSerializationMode) (ps : List Participation)
    (hv : HasMode mode DeSeriModePerformValidation = true)
    (hlen : 2 ≤ ps.length ∧ ps.length ≤ 255)
    (hdup : ¬ (ps.map (·.EventID)).Nodup) :
    Participations.Serialize codec (Participations.ofRecords ps) mode =
        .error .ErrMultipleEventParticipation ∧
      ∀ (p0 : participation.Participations) (data : List Nat),
        structuralDecode codec data mode = some (ps.map .participation) →
        (Participations.Deserialize codec p0 data mode).2.2 =
          some .ErrMultipleEventParticipation :=
  ⟨Serialize_duplicate codec mode ps hv ⟨by omega, hlen.2⟩ hdup,
    fun p0 data hdec => Deserialize_duplicate codec mode ps p0 data hv hdup hdec⟩

theorem duplicate_rejected_under_validation_witness :
    Participations.Serialize demoCodec (Participations.ofRecords [⟨[7], [1]⟩, ⟨[7], []⟩])
        DeSeriModePerformValidation = .error .ErrMultipleEventParticipation ∧
      (Participations.Deserialize demoCodec ⟨[]⟩ [2, 7, 1, 1, 7, 0]
        DeSeriModePerformValidation).2.2 = some .ErrMultipleEventParticipation :=
  have h := duplicate_rejected_under_validation demoCodec DeSeriModePerformValidation
    [⟨[7], [1]⟩, ⟨[7], []⟩] (by decide) (by decide) (by decide)
  ⟨h.1, h.2 ⟨[]⟩ [2, 7, 1, 1, 7, 0] (by rfl)⟩

/-- C4. Validation off skips the checks: a collection of at most 255
participations, each of which honours the encoding contract of a single record,
is serialized without validation to some bytes `b` whether or not two of its
records target the same event, and deserializing `b` without validation
succeeds and leaves the same records in the same order, duplicates included. -/
theorem unvalidated_round_trip (codec : RecordCodec) (mode : DeSerializationMode)
    (ps : List Participation) (p0 : participation.Participations)
    (hnv : HasMode mode DeSeriModePerformValidation = false)
    (hlen : ps.length ≤ 255)
    (hrecords : ∀ p ∈ ps, RoundTrips codec mode p) :
    ∃ b, Participations.Serialize codec (Participations.ofRecords ps) mode = .ok b ∧
      Participations.Deserialize codec p0 b mode =
        (Participations.ofRecords ps, b.length, none) := by
  obtain ⟨encs, hencs⟩ := roundTrips_encodings codec mode ps hrecords
  refine ⟨ps.length :: encs.flatten, ?_, ?_⟩
  · rw [Serialize_unvalidated codec _ mode hnv]
    exact writeObjects_records codec mode (hencs.imp fun _ _ h => h.1) hlen
  · rw [Deserialize_encoded codec p0 mode (hencs.imp fun _ _ h => h.2)
      fun hv => absurd hv (by simp [hnv])]
    simp [hnv]

theorem unvalidated_round_trip_witness :
    ¬ (([⟨[7], [1]⟩, ⟨[7], []⟩] : List Participation).map (·.EventID)).Nodup ∧
    ∃ b, Participations.Serialize demoCodec
        (Participations.ofRecords [⟨[7], [1]⟩, ⟨[7], []⟩]) DeSeriModeNoValidation = .ok b ∧
      Participations.Deserialize demoCodec ⟨[]⟩ b DeSeriModeNoValidation =
        (Participations.ofRecords [⟨[7], [1]⟩, ⟨[7], []⟩], b.length, none) :=
  ⟨by decide,
    unvalidated_round_trip demoCodec DeSeriModeNoValidation [⟨[7], [1]⟩, ⟨[7], []⟩] ⟨[]⟩
      (by decide) (by decide)
      (by
        intro p hp
        simp only [List.mem_cons, List.mem_singleton, List.not_mem_nil, or_false] at hp
        rcases hp with rfl | rfl
        · exact ⟨[7, 1, 1], rfl, fun rest => by simp [demoCodec]⟩
        · exact ⟨[7, 0], rfl, fun rest => by simp [demoCodec]⟩)⟩

/-- C5, as stated, fails: a collection of exactly one record need not serialize
under validation.  The single record below carries 256 answers, its own
encoding reports an error, and `Serialize` returns that error wrapped. -/
theorem validated_single_record_can_fail :
    (Participations.ofRecords [⟨[7], List.replicate 256 0⟩]).Participations.length = 1 ∧
      Participations.Serialize demoCodec
        (Participations.ofRecords [⟨[7], List.replicate 256 0⟩])
        DeSeriModePerformValidation = .error (.unableToSerialize (.external 1)) := by
  have key : ∀ answers : List Nat, ¬ answers.length ≤ 255 →
      Participations.Serialize demoCodec (Participations.ofRecords [⟨[7], answers⟩])
        DeSeriModePerformValidation = .error (.unableToSerialize (.external 1)) := by
    intro answers h
    rw [Serialize_validated _ _ _ (by decide)]
    simp [Participations.ofRecords, ArrayRules.CheckBounds, participationsArrayRules,
      ParticipationsMinParticipationCount, ParticipationsMaxParticipationCount, seenEventsLoop,
      writeObjects, demoCodec, h]
  exact ⟨rfl, key _ (by rw [List.length_replicate]; decide)⟩

/-- C5, amended. Bounds under validation: `Serialize` with validation fails with
a bounds error and no bytes on every collection of 0 records and on every
collection of 256 or more records; it succeeds on every collection of exactly 1
participation and on every collection of exactly 255 participations with
pairwise distinct event identifiers, provided the own encoding of each record
succeeds; and `Deserialize` with validation fails with a bounds error on every
input whose count prefix is 0. -/
theorem validated_bounds (codec : RecordCodec) (mode : DeSerializationMode)
    (hv : HasMode mode DeSeriModePerformValidation = true) :
    (∀ x : participation.Participations, x.Participations.length = 0 →
      Participations.Serialize codec x mode =
        .error (.unableToSerialize (.ErrArrayValidationMinElementsNotReached 1 0))) ∧
    (∀ x : participation.Participations, 256 ≤ x.Participations.length →
      Participations.Serialize codec x mode =
        .error (.unableToSerialize
          (.ErrArrayValidationMaxElementsExceeded 255 x.Participations.length))) ∧
    (∀ ps : List Participation,
      ps.length = 1 ∨ (ps.length = 255 ∧ (ps.map (·.EventID)).Nodup) →
      (∀ p ∈ ps, ∃ e, codec.Serialize (.participation p) mode = .ok e) →
      ∃ b, Participations.Serialize codec (Participations.ofRecords ps) mode = .ok b) ∧
    (∀ (p0 : participation.Participations) (body : List Nat),
      (Participations.Deserialize codec p0 (0 :: body) mode).2.2 =
        some (.unableToDeserialize (.ErrArrayValidationMinElementsNotReached 1 0))) := by
  refine ⟨?_, ?_, ?_, ?_⟩
  · intro x hx
    rw [Serialize_validated codec x mode hv, hx]
    rfl
  · intro x hx
    rw [Serialize_validated codec x mode hv]
    have hcb : participationsArrayRules.CheckBounds x.Participations.length =
        some (.ErrArrayValidationMaxElementsExceeded 255 x.Participations.length) := by
      simp only [ArrayRules.CheckBounds, participationsArrayRules,
        ParticipationsMinParticipationCount, ParticipationsMaxParticipationCount]
      rw [if_neg (by omega), if_pos ⟨by decide, by omega⟩]
    rw [hcb]
  · intro ps hps henc
    have hlen : 1 ≤ ps.length ∧ ps.length ≤ 255 := by omega
    have hnd : (ps.map (·.EventID)).Nodup := by
      rcases hps with h1 | ⟨-, h⟩
      · match ps, h1 with
        | [p], _ => simp
      · exact h
    have hencs : ∃ encs, List.Forall₂
        (fun p e => codec.Serialize (.participation p) mode = .ok e) ps encs := by
      clear hps hlen hnd
      induction ps with
      | nil => exact ⟨[], List.Forall₂.nil⟩
      | cons p rest ih =>
        obtain ⟨e, he⟩ := henc p (List.mem_cons_self _ _)
        obtain ⟨encs, hr⟩ := ih fun q hq => henc q (List.mem_cons_of_mem _ hq)
        exact ⟨e :: encs, List.Forall₂.cons he hr⟩
    obtain ⟨encs, hencs⟩ := hencs
    refine ⟨ps.length :: encs.flatten, ?_⟩
    rw [Serialize_validated codec _ mode hv]
    have hcb : participationsArrayRules.CheckBounds
        (Participations.ofRecords ps).Participations.length = none :=
      (checkBounds_eq_none _).2 (by simpa [Participations.ofRecords] using hlen)
    have hloop : seenEventsLoop (ps.map Serializable.participation) [] = none := by
      rw [seenEventsLoop_records]; simp [hnd]
    rw [hcb]
    simp only [Participations.ofRecords, hloop]
    exact writeObjects_records codec mode hencs hlen.2
  · intro p0 body
    simp [Participations.Deserialize, Deserializer.ReadSliceOfObjects, NewDeserializer, hv,
      ArrayRules.CheckBounds, participationsArrayRules, ParticipationsMinParticipationCount,
      Deserializer.AbortIf, Deserializer.Done]

theorem validated_bounds_witness :
    Participations.Serialize demoCodec ⟨[]⟩ DeSeriModePerformValidation =
        .error (.unableToSerialize (.ErrArrayValidationMinElementsNotReached 1 0)) ∧
      (∃ b, Participations.Serialize demoCodec (Participations.ofRecords [⟨[7], [1]⟩])
        DeSeriModePerformValidation = .ok b) ∧
      (Participations.Deserialize demoCodec ⟨[]⟩ [0, 7, 0] DeSeriModePerformValidation).2.2 =
        some (.unableToDeserialize (.ErrArrayValidationMinElementsNotReached 1 0)) :=
  have h := validated_bounds demoCodec DeSeriModePerformValidation (by decide)
  ⟨h.1 ⟨[]⟩ rfl,
    h.2.2.1 [⟨[7], [1]⟩] (Or.inl rfl) (by
      intro p hp
      simp only [List.mem_singleton] at hp
      subst hp
      exact ⟨[7, 1, 1], rfl⟩),
    h.2.2.2 ⟨[]⟩ [7, 0]⟩

/-- C6, as stated, fails: a validated decode of bytes holding two records for the
same event returns `ErrMultipleEventParticipation`, and the receiver, which held
one other record before the call, holds the two decoded records after it. -/
theorem deserialize_failure_overwrites_receiver :
    Participations.Deserialize demoCodec (Participations.ofRecords [⟨[9], []⟩])
        [2, 7, 0, 7, 0] DeSeriModePerformValidation =
      (Participations.ofRecords [⟨[7], []⟩, ⟨[7], []⟩], 5,
        some .ErrMultipleEventParticipation) ∧
    Participations.ofRecords [⟨[7], []⟩, ⟨[7], []⟩] ≠ Participations.ofRecords [⟨[9], []⟩] :=
  ⟨by rfl, by decide⟩

/-- C6, amended. Whenever `Deserialize` returns an error, either the error was
raised while reading the count prefix and the records, it is wrapped as "unable
to deserialize participations", and the records of the receiver are the same as
before the call; or the records were all read, the decode is a validated one,
the error is `ErrMultipleEventParticipation`, and the receiver holds the whole
decoded collection. -/
theorem deserialize_receiver_on_failure (codec : RecordCodec)
    (p : participation.Participations) (data : List Nat) (mode : DeSerializationMode)
    (e : Error) (herr : (Participations.Deserialize codec p data mode).2.2 = some e) :
    (structuralDecode codec data mode = none ∧
      (∃ cause, e = .unableToDeserialize cause) ∧
      (Participations.Deserialize codec p data mode).1 = p) ∨
    (∃ x, structuralDecode codec data mode = some x ∧
      HasMode mode DeSeriModePerformValidation = true ∧
      e = .ErrMultipleEventParticipation ∧
      (Participations.Deserialize codec p data mode).1 = { Participations := x }) := by
  rcases Deserialize_structural codec p data mode with
    ⟨x, hx, hrecv, he, ps, rfl, -⟩ | ⟨hnone, hrecv, cause, he⟩
  · right
    rw [he] at herr
    cases hv : HasMode mode DeSeriModePerformValidation with
    | false => simp [hv] at herr
    | true =>
      refine ⟨_, hx, rfl, ?_, hrecv⟩
      rw [seenEventsLoop_records] at herr
      simp only [hv, if_true] at herr
      split_ifs at herr
      exact (Option.some.inj herr).symm
  · left
    rw [he] at herr
    exact ⟨hnone, ⟨cause, (Option.some.inj herr).symm⟩, hrecv⟩

theorem deserialize_receiver_on_failure_witness :
    (Participations.Deserialize demoCodec (Participations.ofRecords [⟨[9], []⟩]) [2, 7, 0]
        DeSeriModePerformValidation).2.2 =
      some (.unableToDeserialize .ErrDeserializationNotEnoughData) ∧
    (Participations.Deserialize demoCodec (Participations.ofRecords [⟨[9], []⟩]) [2, 7, 0]
        DeSeriModePerformValidation).1 = Participations.ofRecords [⟨[9], []⟩] :=
  ⟨by rfl,
    ((deserialize_receiver_on_failure demoCodec (Participations.ofRecords [⟨[9], []⟩])
      [2, 7, 0] DeSeriModePerformValidation
      (.unableToDeserialize .ErrDeserializationNotEnoughData) (by rfl)).resolve_right
      (fun ⟨_, _, _, he, _⟩ => by cases he)).2.2⟩

/-- C7, as stated, fails: two collections whose duplicated event identifiers
differ (7 and 8) make validated `Serialize` and validated `Deserialize` return
one and the same error. -/
theorem duplicate_error_same_for_different_events :
    Participations.Serialize demoCodec (Participations.ofRecords [⟨[7], []⟩, ⟨[7], []⟩])
        DeSeriModePerformValidation =
      Participations.Serialize demoCodec (Participations.ofRecords [⟨[8], []⟩, ⟨[8], []⟩])
        DeSeriModePerformValidation ∧
    (Participations.Deserialize demoCodec ⟨[]⟩ [2, 7, 0, 7, 0]
        DeSeriModePerformValidation).2.2 =
      (Participations.Deserialize demoCodec ⟨[]⟩ [2, 8, 0, 8, 0]
        DeSeriModePerformValidation).2.2 ∧
    (Participations.Deserialize demoCodec ⟨[]⟩ [2, 7, 0, 7, 0]
        DeSeriModePerformValidation).2.2 = some .ErrMultipleEventParticipation :=
  ⟨by rfl, by rfl, by rfl⟩

/-- C7, amended. The duplicate-participation error is the one fixed value
`ErrMultipleEventParticipation` and does not identify the event: any two
collections of 2 to 255 participations that each contain two records for one
event make validated `Serialize` return the same error, and any two byte
strings that structurally decode to them make validated `Deserialize` return
the same error. -/
theorem duplicate_error_is_constant (codec : RecordCodec) (mode : DeSerializationMode)
    (ps qs : List Participation)
    (hv : HasMode mode DeSeriModePerformValidation = true)
    (hps : 2 ≤ ps.length ∧ ps.length ≤ 255) (hqs : 2 ≤ qs.length ∧ qs.length ≤ 255)
    (hdup : ¬ (ps.map (·.EventID)).Nodup) (hdup2 : ¬ (qs.map (·.EventID)).Nodup) :
    Participations.Serialize codec (Participations.ofRecords ps) mode =
        Participations.Serialize codec (Participations.ofRecords qs) mode ∧
      ∀ (p0 q0 : participation.Participations) (data data2 : List Nat),
        structuralDecode codec data mode = some (ps.map .participation) →
        structuralDecode codec data2 mode = some (qs.map .participation) →
        (Participations.Deserialize codec p0 data mode).2.2 =
          (Participations.Deserialize codec q0 data2 mode).2.2 := by
  refine ⟨?_, fun p0 q0 data data2 h1 h2 => ?_⟩
  · rw [Serialize_duplicate codec mode ps hv ⟨by omega, hps.2⟩ hdup,
      Serialize_duplicate codec mode qs hv ⟨by omega, hqs.2⟩ hdup2]
  · rw [Deserialize_duplicate codec mode ps p0 data hv hdup h1,
      Deserialize_duplicate codec mode qs q0 data2 hv hdup2 h2]

theorem duplicate_error_is_constant_witness :
    Participations.Serialize demoCodec (Participations.ofRecords [⟨[7], []⟩, ⟨[7], [1]⟩])
        DeSeriModePerformValidation =
      Participations.Serialize demoCodec
        (Participations.ofRecords [⟨[8], []⟩, ⟨[9], []⟩, ⟨[8], []⟩])
        DeSeriModePerformValidation :=
  (duplicate_error_is_constant demoCodec DeSeriModePerformValidation
    [⟨[7], []⟩, ⟨[7], [1]⟩] [⟨[8], []⟩, ⟨[9], []⟩, ⟨[8], []⟩]
    (by decide) (by decide) (by decide) (by decide) (by decide)).1

/-! ## The JSON form -/

/-- C8. JSON round trip: for a collection of any length, validated or not, whose
records each render to a raw message that parses back to the record, and when
the JSON library writes the wrapper holding these raw messages as `b` and reads
`b` back as that wrapper, `MarshalJSON` succeeds with `b`, which is the wrapper
whose single key `participations` holds one raw message per record in order,
and `UnmarshalJSON` of `b` returns without error and leaves the same records in
the same order in the receiver. -/
theorem json_round_trip (lib : WrapperJSON) (codec : RecordCodec)
    (x p0 : participation.Participations) (raws : List (List Nat)) (b : List Nat)
    (hrecords : List.Forall₂
      (fun s raw => codec.MarshalJSON s = .ok raw ∧
        ∃ p, codec.UnmarshalJSON raw = .ok p ∧ s = .participation p) x.Participations raws)
    (hwrite : lib.Marshal { Participations := raws.map some } = .ok b)
    (hread : lib.Unmarshal b = .ok { Participations := raws.map some }) :
    Participations.MarshalJSON lib codec x =
        lib.Marshal { Participations := raws.map some } ∧
      Participations.MarshalJSON lib codec x = .ok b ∧
      Participations.UnmarshalJSON lib codec p0 b = (x, .returns none) := by
  have hm : Participations.MarshalJSON lib codec x =
      lib.Marshal { Participations := raws.map some } := by
    simp [Participations.MarshalJSON, marshalLoop_ok codec (hrecords.imp fun _ _ h => h.1)]
  have hps : ∃ ps : List Participation,
      List.Forall₂ (fun raw p => codec.UnmarshalJSON raw = .ok p) raws ps ∧
        x.Participations = ps.map .participation := by
    generalize x.Participations = l at hrecords
    clear hm hwrite hread
    induction hrecords with
    | nil => exact ⟨[], List.Forall₂.nil, rfl⟩
    | cons h _ ih =>
      obtain ⟨-, p, hp, rfl⟩ := h
      obtain ⟨ps, hf, rfl⟩ := ih
      exact ⟨p :: ps, List.Forall₂.cons hp hf, rfl⟩
  obtain ⟨ps, hf, hx⟩ := hps
  have hf2 : List.Forall₂
      (fun ele p => ∃ raw, ele = some raw ∧ codec.UnmarshalJSON raw = .ok p)
      (raws.map some) ps := by
    rw [List.forall₂_map_left_iff]
    exact hf.imp fun raw _ h => ⟨raw, rfl, h⟩
  refine ⟨hm, hm.trans hwrite, ?_⟩
  simp only [Participations.UnmarshalJSON, hread, jsonParticipations.ToSerializable,
    toSerializableLoop_ok codec hf2, List.nil_append]
  cases x
  simp only at hx
  rw [hx]

theorem json_round_trip_witness :
    Participations.MarshalJSON demoJSON demoCodec
        (Participations.ofRecords [⟨[7], [1]⟩, ⟨[7], [2]⟩]) =
      demoJSON.Marshal { Participations := [[7, 1], [7, 2]].map some } ∧
    Participations.MarshalJSON demoJSON demoCodec
        (Participations.ofRecords [⟨[7], [1]⟩, ⟨[7], [2]⟩]) = .ok [2, 7, 1, 2, 7, 2] ∧
    Participations.UnmarshalJSON demoJSON demoCodec ⟨[]⟩ [2, 7, 1, 2, 7, 2] =
      (Participations.ofRecords [⟨[7], [1]⟩, ⟨[7], [2]⟩], .returns none) :=
  json_round_trip demoJSON demoCodec (Participations.ofRecords [⟨[7], [1]⟩, ⟨[7], [2]⟩]) ⟨[]⟩
    [[7, 1], [7, 2]] [2, 7, 1, 2, 7, 2]
    (List.Forall₂.cons ⟨rfl, _, rfl, rfl⟩ (List.Forall₂.cons ⟨rfl, _, rfl, rfl⟩ List.Forall₂.nil))
    (by rfl) (by rfl)

/-- When the elements before position `i` of the `participations` array are raw
messages that parse and the element at position `i` is a raw message that
fails to parse with error `e`, `ToSerializable` returns the error "pos i"
wrapping `e`, whatever the later elements are, and `UnmarshalJSON` of any text
that reads as this wrapper returns the same error and leaves the receiver as
it was. -/
theorem json_element_failure_of_raw (lib : WrapperJSON) (codec : RecordCodec)
    (pre : List (List Nat)) (post : List (Option (List Nat))) (bad : List Nat) (e : Error)
    (hpre : ∀ r ∈ pre, ∃ p, codec.UnmarshalJSON r = .ok p)
    (hbad : codec.UnmarshalJSON bad = .error e) :
    jsonParticipations.ToSerializable codec
        { Participations := pre.map some ++ some bad :: post } =
        .returns (.error (.pos pre.length e)) ∧
      ∀ (p0 : participation.Participations) (bytes : List Nat),
        lib.Unmarshal bytes = .ok { Participations := pre.map some ++ some bad :: post } →
        Participations.UnmarshalJSON lib codec p0 bytes =
          (p0, .returns (some (.pos pre.length e))) := by
  have hloop := toSerializableLoop_error codec bad post e hbad pre hpre 0 []
  rw [Nat.zero_add] at hloop
  have hts : jsonParticipations.ToSerializable codec
      { Participations := pre.map some ++ some bad :: post } =
      .returns (.error (.pos pre.length e)) := by
    simp [jsonParticipations.ToSerializable, hloop]
  refine ⟨hts, fun p0 bytes hb => ?_⟩
  simp [Participations.UnmarshalJSON, hb, hts]

/-- When the elements before a position of the `participations` array are raw
messages that parse and the element at that position is the nil pointer, a
JSON `null`, `ToSerializable` panics, whatever the later elements are, and so
does `UnmarshalJSON` of any text that reads as this wrapper; the receiver is
as it was. -/
theorem json_null_element (lib : WrapperJSON) (codec : RecordCodec)
    (pre : List (List Nat)) (post : List (Option (List Nat)))
    (hpre : ∀ r ∈ pre, ∃ p, codec.UnmarshalJSON r = .ok p) :
    jsonParticipations.ToSerializable codec
        { Participations := pre.map some ++ none :: post } = .nilPointerPanic ∧
      ∀ (p0 : participation.Participations) (bytes : List Nat),
        lib.Unmarshal bytes = .ok { Participations := pre.map some ++ none :: post } →
        Participations.UnmarshalJSON lib codec p0 bytes = (p0, .nilPointerPanic) := by
  have hloop := toSerializableLoop_nil codec post pre hpre 0 []
  have hts : jsonParticipations.ToSerializable codec
      { Participations := pre.map some ++ none :: post } = .nilPointerPanic := by
    simp [jsonParticipations.ToSerializable, hloop]
  refine ⟨hts, fun p0 bytes hb => ?_⟩
  simp [Participations.UnmarshalJSON, hb, hts]

/-- C9, at the failing input. The wrapper holds a `null` element at position 0 and
at position 1 a raw message that does not parse.  Whether or not the `null`
counts as an element that fails to parse, the claim asks for an error that
reports a position; `ToSerializable` returns no error at all: it panics at
`ele.MarshalJSON()` on the nil pointer, and `UnmarshalJSON` of the text of this
wrapper panics with it.  With the `null` removed the error "pos 0" is
returned. -/
theorem json_null_element_panics :
    jsonParticipations.ToSerializable demoCodec { Participations := [none, some [7]] } =
        .nilPointerPanic ∧
      Participations.UnmarshalJSON demoJSON demoCodec (Participations.ofRecords [⟨[5], []⟩])
        [0, 1, 7] = (Participations.ofRecords [⟨[5], []⟩], .nilPointerPanic) ∧
      demoJSON.Unmarshal [0, 1, 7] = .ok { Participations := [none, some [7]] } ∧
      jsonParticipations.ToSerializable demoCodec { Participations := [some [7]] } =
        .returns (.error (.pos 0 (.external 4))) :=
  ⟨by rfl, by rfl, by rfl, by rfl⟩

/-! ## The event status -/

theorem balanceForAnswerValueLogged_fst (pm : ParticipationManager) (eventID : EventID)
    (questionIndex v : Nat) (h : List Nat) (log : List Lookup) :
    (balanceForAnswerValueLogged pm eventID questionIndex v h log).1 =
      balanceForAnswerValue pm eventID questionIndex v h := by
  unfold balanceForAnswerValueLogged balanceForAnswerValue
  cases pm.CurrentBallotVoteBalanceForQuestionAndAnswer eventID questionIndex v with
  | error err => rfl
  | ok c =>
    cases pm.AccumulatedBallotVoteBalanceForQuestionAndAnswer eventID questionIndex v <;> rfl

theorem validAnswersLoopLogged_fst (pm : ParticipationManager) (eventID : EventID)
    (questionIndex : Nat) : ∀ (answers : List Answer) (qs : QuestionStatus) (h : List Nat)
    (log : List Lookup),
    (validAnswersLoopLogged pm eventID questionIndex answers qs h log).1 =
      validAnswersLoop pm eventID questionIndex answers qs h
  | [], qs, h, log => rfl
  | answer :: rest, qs, h, log => by
    have hb := balanceForAnswerValueLogged_fst pm eventID questionIndex answer.Value h log
    simp only [validAnswersLoopLogged, validAnswersLoop, ← hb]
    rcases balanceForAnswerValueLogged pm eventID questionIndex answer.Value h log with
      ⟨_ | ⟨a, h1⟩, lg⟩
    · rfl
    · exact validAnswersLoopLogged_fst pm eventID questionIndex rest _ _ _

theorem questionsLoopLogged_fst (pm : ParticipationManager) (eventID : EventID) :
    ∀ (questions : List Question) (idx : Nat) (acc : List QuestionStatus) (h : List Nat)
    (log : List Lookup),
    (questionsLoopLogged pm eventID idx questions acc h log).1 =
      questionsLoop pm eventID idx questions acc h
  | [], idx, acc, h, log => rfl
  | question :: rest, idx, acc, h, log => by
    have hv := validAnswersLoopLogged_fst pm eventID (idx % 256) question.QuestionAnswers
      { Answers := [] } (h ++ [idx % 256]) log
    simp only [questionsLoopLogged, questionsLoop, ← hv]
    rcases validAnswersLoopLogged pm eventID (idx % 256) question.QuestionAnswers
      { Answers := [] } (h ++ [idx % 256]) log with ⟨_ | ⟨qs, h1⟩, lg1⟩
    · rfl
    · have hs := balanceForAnswerValueLogged_fst pm eventID (idx % 256) AnswerValueSkipped h1 lg1
      simp only [← hs]
      rcases balanceForAnswerValueLogged pm eventID (idx % 256) AnswerValueSkipped h1 lg1 with
        ⟨_ | ⟨skipped, h2⟩, lg2⟩
      · rfl
      · have hi :=
          balanceForAnswerValueLogged_fst pm eventID (idx % 256) AnswerValueInvalid h2 lg2
        simp only [← hi]
        rcases balanceForAnswerValueLogged pm eventID (idx % 256) AnswerValueInvalid h2 lg2 with
          ⟨_ | ⟨invalid, h3⟩, lg3⟩
        · rfl
        · exact questionsLoopLogged_fst pm eventID rest _ _ _ _

/-- Dropping the log of `EventStatusLogged` gives `EventStatus`. -/
theorem EventStatusLogged_fst (sha256 : List Nat → List Nat) (pm : ParticipationManager)
    (eventID : EventID) :
    (pm.EventStatusLogged sha256 eventID).1 = pm.EventStatus sha256 eventID := by
  unfold ParticipationManager.EventStatusLogged ParticipationManager.EventStatus
  cases pm.Event eventID with
  | none => rfl
  | some event =>
    have hq := questionsLoopLogged_fst pm eventID event.BallotQuestions 0 [] [] []
    simp only [← hq]
    rcases questionsLoopLogged pm eventID 0 event.BallotQuestions [] [] [] with
      ⟨_ | ⟨questions, h⟩, lg⟩ <;> rfl

theorem firstFailure_append (pm : ParticipationManager) (eventID : EventID) :
    ∀ (a b : List Lookup), firstFailure pm eventID (a ++ b) =
      match firstFailure pm eventID a with
      | some err => some err
      | none => firstFailure pm eventID b
  | [], b => rfl
  | l :: a, b => by
    simp only [List.cons_append, firstFailure]
    cases l.run pm eventID with
    | error err => rfl
    | ok c => exact firstFailure_append pm eventID a b

theorem lookupsUntilFailure_append (pm : ParticipationManager) (eventID : EventID) :
    ∀ (a b : List Lookup), lookupsUntilFailure pm eventID (a ++ b) =
      match firstFailure pm eventID a with
      | some _ => lookupsUntilFailure pm eventID a
      | none => a ++ lookupsUntilFailure pm eventID b
  | [], b => rfl
  | l :: a, b => by
    simp only [List.cons_append, firstFailure, lookupsUntilFailure]
    cases l.run pm eventID with
    | error err => rfl
    | ok c =>
      have ih := lookupsUntilFailure_append pm eventID a b
      cases hf : firstFailure pm eventID a with
      | none =>
        rw [hf] at ih
        show l :: lookupsUntilFailure pm eventID (a ++ b) = l :: (a ++ _)
        rw [ih]
      | some err =>
        rw [hf] at ih
        show l :: lookupsUntilFailure pm eventID (a ++ b) = l :: _
        rw [ih]

theorem balanceForAnswerValueLogged_spec (pm : ParticipationManager) (eventID : EventID)
    (questionIndex v : Nat) (h : List Nat) (log : List Lookup) :
    errorOf (balanceForAnswerValueLogged pm eventID questionIndex v h log).1 =
        firstFailure pm eventID [.current questionIndex v, .accumulated questionIndex v] ∧
      (balanceForAnswerValueLogged pm eventID questionIndex v h log).2 =
        log ++ lookupsUntilFailure pm eventID
          [.current questionIndex v, .accumulated questionIndex v] := by
  simp only [balanceForAnswerValueLogged, firstFailure, lookupsUntilFailure, Lookup.run]
  cases pm.CurrentBallotVoteBalanceForQuestionAndAnswer eventID questionIndex v with
  | error err => exact ⟨rfl, rfl⟩
  | ok c =>
    cases pm.AccumulatedBallotVoteBalanceForQuestionAndAnswer eventID questionIndex v with
    | error err => exact ⟨rfl, rfl⟩
    | ok a => exact ⟨rfl, rfl⟩

theorem lookupsUntilFailure_of_none (pm : ParticipationManager) (eventID : EventID) :
    ∀ (a : List Lookup), firstFailure pm eventID a = none →
      lookupsUntilFailure pm eventID a = a
  | [], _ => rfl
  | l :: a, h => by
    simp only [firstFailure, lookupsUntilFailure] at h ⊢
    cases hl : l.run pm eventID with
    | error err => simp [hl] at h
    | ok c =>
      simp only [hl] at h ⊢
      rw [lookupsUntilFailure_of_none pm eventID a h]

theorem validAnswersLoopLogged_spec (pm : ParticipationManager) (eventID : EventID)
    (questionIndex : Nat) : ∀ (answers : List Answer) (qs : QuestionStatus) (h : List Nat)
    (log : List Lookup),
    errorOf (validAnswersLoopLogged pm eventID questionIndex answers qs h log).1 =
        firstFailure pm eventID (answers.flatMap fun a =>
          [.current questionIndex a.Value, .accumulated questionIndex a.Value]) ∧
      (validAnswersLoopLogged pm eventID questionIndex answers qs h log).2 =
        log ++ lookupsUntilFailure pm eventID (answers.flatMap fun a =>
          [.current questionIndex a.Value, .accumulated questionIndex a.Value])
  | [], qs, h, log => by
    simp [validAnswersLoopLogged, errorOf, firstFailure, lookupsUntilFailure]
  | answer :: rest, qs, h, log => by
    obtain ⟨hb1, hb2⟩ :=
      balanceForAnswerValueLogged_spec pm eventID questionIndex answer.Value h log
    rw [List.flatMap_cons, firstFailure_append, lookupsUntilFailure_append]
    rcases hres : balanceForAnswerValueLogged pm eventID questionIndex answer.Value h log with
      ⟨_ | ⟨a, h1⟩, lg⟩
    · rw [hres] at hb1 hb2
      simp only [validAnswersLoopLogged, hres, ← hb1, errorOf]
      exact ⟨trivial, hb2⟩
    · rw [hres] at hb1 hb2
      simp only [errorOf] at hb1
      simp only at hb2
      obtain ⟨ih1, ih2⟩ := validAnswersLoopLogged_spec pm eventID questionIndex rest
        { Answers := qs.Answers ++ [a] } h1 lg
      rw [lookupsUntilFailure_of_none pm eventID _ hb1.symm] at hb2
      simp only [validAnswersLoopLogged, hres, ← hb1]
      exact ⟨ih1, by rw [ih2, hb2, List.append_assoc]⟩

theorem lookupOrderOfQuestion_eq (questionIndex : Nat) (question : Question) :
    lookupOrderOfQuestion questionIndex question =
      (question.QuestionAnswers.flatMap fun a =>
          [Lookup.current questionIndex a.Value, Lookup.accumulated questionIndex a.Value]) ++
        ([.current questionIndex AnswerValueSkipped,
            .accumulated questionIndex AnswerValueSkipped] ++
          [.current questionIndex AnswerValueInvalid,
            .accumulated questionIndex AnswerValueInvalid]) := by
  simp [lookupOrderOfQuestion, reportedValues, List.flatMap_append, List.flatMap_map]

theorem questionsLoopLogged_spec (pm : ParticipationManager) (eventID : EventID) :
    ∀ (questions : List Question) (idx : Nat) (acc : List QuestionStatus) (h : List Nat)
    (log : List Lookup),
    errorOf (questionsLoopLogged pm eventID idx questions acc h log).1 =
        firstFailure pm eventID (lookupOrderFrom idx questions) ∧
      (questionsLoopLogged pm eventID idx questions acc h log).2 =
        log ++ lookupsUntilFailure pm eventID (lookupOrderFrom idx questions)
  | [], idx, acc, h, log => by
    simp [questionsLoopLogged, errorOf, firstFailure, lookupsUntilFailure, lookupOrderFrom]
  | question :: rest, idx, acc, h, log => by
    have horder : lookupOrderFrom idx (question :: rest) =
        (question.QuestionAnswers.flatMap fun a =>
          [Lookup.current (idx % 256) a.Value, Lookup.accumulated (idx % 256) a.Value]) ++
        ([.current (idx % 256) AnswerValueSkipped,
            .accumulated (idx % 256) AnswerValueSkipped] ++
          ([.current (idx % 256) AnswerValueInvalid,
              .accumulated (idx % 256) AnswerValueInvalid] ++
            lookupOrderFrom (idx + 1) rest)) := by
      simp only [lookupOrderFrom, lookupOrderOfQuestion_eq, List.append_assoc]
    rw [horder, firstFailure_append, lookupsUntilFailure_append]
    obtain ⟨hv1, hv2⟩ := validAnswersLoopLogged_spec pm eventID (idx % 256)
      question.QuestionAnswers { Answers := [] } (h ++ [idx % 256]) log
    rcases hres : validAnswersLoopLogged pm eventID (idx % 256) question.QuestionAnswers
      { Answers := [] } (h ++ [idx % 256]) log with ⟨_ | ⟨qs, h1⟩, lg1⟩
    · rw [hres] at hv1 hv2
      simp only [questionsLoopLogged, hres, ← hv1, errorOf]
      exact ⟨trivial, hv2⟩
    · rw [hres] at hv1 hv2
      simp only [errorOf] at hv1
      simp only at hv2
      rw [lookupsUntilFailure_of_none pm eventID _ hv1.symm] at hv2
      simp only [questionsLoopLogged, hres, ← hv1]
      rw [firstFailure_append, lookupsUntilFailure_append]
      obtain ⟨hs1, hs2⟩ :=
        balanceForAnswerValueLogged_spec pm eventID (idx % 256) AnswerValueSkipped h1 lg1
      rcases hress : balanceForAnswerValueLogged pm eventID (idx % 256) AnswerValueSkipped
        h1 lg1 with ⟨_ | ⟨skipped, h2⟩, lg2⟩
      · rw [hress] at hs1 hs2
        simp only at hs2
        simp only [← hs1, errorOf]
        exact ⟨trivial, by rw [hs2, hv2, List.append_assoc]⟩
      · rw [hress] at hs1 hs2
        simp only [errorOf] at hs1
        simp only at hs2
        rw [lookupsUntilFailure_of_none pm eventID _ hs1.symm] at hs2
        simp only [← hs1]
        rw [firstFailure_append, lookupsUntilFailure_append]
        obtain ⟨hi1, hi2⟩ :=
          balanceForAnswerValueLogged_spec pm eventID (idx % 256) AnswerValueInvalid h2 lg2
        rcases hresi : balanceForAnswerValueLogged pm eventID (idx % 256) AnswerValueInvalid
          h2 lg2 with ⟨_ | ⟨invalid, h3⟩, lg3⟩
        · rw [hresi] at hi1 hi2
          simp only at hi2
          simp only [← hi1, errorOf]
          exact ⟨trivial, by rw [hi2, hs2, hv2]; simp only [List.append_assoc]⟩
        · rw [hresi] at hi1 hi2
          simp only [errorOf] at hi1
          simp only at hi2
          rw [lookupsUntilFailure_of_none pm eventID _ hi1.symm] at hi2
          simp only [← hi1]
          obtain ⟨ih1, ih2⟩ := questionsLoopLogged_spec pm eventID rest (idx + 1)
            (acc ++ [{ Answers := qs.Answers ++ [skipped] ++ [invalid] }]) h3 lg3
          exact ⟨ih1, by rw [ih2, hi2, hs2, hv2]; simp only [List.append_assoc]⟩

/-- The error of `EventStatus` for a known event is that of the first lookup in
traversal order that fails, and the lookups made are those up to and including
it. -/
theorem EventStatusLogged_spec (sha256 : List Nat → List Nat) (pm : ParticipationManager)
    (eventID : EventID) (event : Event) (hevent : pm.Event eventID = some event) :
    errorOf (pm.EventStatus sha256 eventID) = firstFailure pm eventID (lookupOrder event) ∧
      (pm.EventStatusLogged sha256 eventID).2 =
        lookupsUntilFailure pm eventID (lookupOrder event) := by
  rw [← EventStatusLogged_fst]
  obtain ⟨h1, h2⟩ := questionsLoopLogged_spec pm eventID event.BallotQuestions 0 [] [] []
  simp only [ParticipationManager.EventStatusLogged, hevent, lookupOrder]
  rcases hres : questionsLoopLogged pm eventID 0 event.BallotQuestions [] [] [] with
    ⟨_ | ⟨questions, h⟩, lg⟩
  · rw [hres] at h1 h2
    exact ⟨h1, by simpa using h2⟩
  · rw [hres] at h1 h2
    exact ⟨h1, by simpa using h2⟩

/-! ## Lemmas on the checksum input -/

theorem balanceForAnswerValue_hash {pm : ParticipationManager} {eventID : EventID}
    {questionIndex v : Nat} {h h2 : List Nat} {a : AnswerStatus}
    (hok : balanceForAnswerValue pm eventID questionIndex v h = .ok (a, h2)) :
    h2 = h ++ answerBytes a := by
  unfold balanceForAnswerValue at hok
  cases hc : pm.CurrentBallotVoteBalanceForQuestionAndAnswer eventID questionIndex v with
  | error err => simp [hc] at hok
  | ok c =>
    cases hacc : pm.AccumulatedBallotVoteBalanceForQuestionAndAnswer eventID questionIndex v with
    | error err => simp [hc, hacc] at hok
    | ok acc =>
      simp only [hc, hacc, Except.ok.injEq, Prod.mk.injEq] at hok
      obtain ⟨rfl, rfl⟩ := hok
      simp [answerBytes, List.append_assoc]

theorem validAnswersLoop_hash (pm : ParticipationManager) (eventID : EventID)
    (questionIndex : Nat) : ∀ (answers : List Answer) (qs : QuestionStatus) (h : List Nat)
    (qs2 : QuestionStatus) (h2 : List Nat),
    validAnswersLoop pm eventID questionIndex answers qs h = .ok (qs2, h2) →
      ∃ new, qs2.Answers = qs.Answers ++ new ∧ h2 = h ++ new.flatMap answerBytes
  | [], qs, h, qs2, h2, hok => by
    simp only [validAnswersLoop, Except.ok.injEq, Prod.mk.injEq] at hok
    exact ⟨[], by simp [hok.1], by simp [hok.2]⟩
  | answer :: rest, qs, h, qs2, h2, hok => by
    simp only [validAnswersLoop] at hok
    cases hb : balanceForAnswerValue pm eventID questionIndex answer.Value h with
    | error err => simp [hb] at hok
    | ok r =>
      obtain ⟨a, h1⟩ := r
      simp only [hb] at hok
      obtain ⟨new, hnew, hh⟩ := validAnswersLoop_hash pm eventID questionIndex rest _ _ _ _ hok
      refine ⟨a :: new, by simp [hnew], ?_⟩
      rw [hh, balanceForAnswerValue_hash hb]
      simp [List.append_assoc]

theorem questionsLoop_hash (pm : ParticipationManager) (eventID : EventID) :
    ∀ (questions : List Question) (idx : Nat) (acc : List QuestionStatus) (h : List Nat)
    (acc2 : List QuestionStatus) (h2 : List Nat),
    questionsLoop pm eventID idx questions acc h = .ok (acc2, h2) →
      ∃ new, acc2 = acc ++ new ∧ h2 = h ++ statusBytesFrom idx new
  | [], idx, acc, h, acc2, h2, hok => by
    simp only [questionsLoop, Except.ok.injEq, Prod.mk.injEq] at hok
    exact ⟨[], by simp [hok.1], by simp [hok.2, statusBytesFrom]⟩
  | question :: rest, idx, acc, h, acc2, h2, hok => by
    simp only [questionsLoop] at hok
    cases hv : validAnswersLoop pm eventID (idx % 256) question.QuestionAnswers
        { Answers := [] } (h ++ [idx % 256]) with
    | error err => simp [hv] at hok
    | ok r =>
      obtain ⟨qs, h1⟩ := r
      simp only [hv] at hok
      cases hs : balanceForAnswerValue pm eventID (idx % 256) AnswerValueSkipped h1 with
      | error err => simp [hs] at hok
      | ok r2 =>
        obtain ⟨skipped, h3⟩ := r2
        simp only [hs] at hok
        cases hi : balanceForAnswerValue pm eventID (idx % 256) AnswerValueInvalid h3 with
        | error err => simp [hi] at hok
        | ok r3 =>
          obtain ⟨invalid, h4⟩ := r3
          simp only [hi] at hok
          obtain ⟨new, hnew, hh⟩ := questionsLoop_hash pm eventID rest _ _ _ _ _ hok
          obtain ⟨declared, hd, hhd⟩ := validAnswersLoop_hash pm eventID _ _ _ _ _ _ hv
          simp only [List.nil_append] at hd
          refine ⟨{ Answers := qs.Answers ++ [skipped] ++ [invalid] } :: new,
            by simp [hnew], ?_⟩
          rw [hh, balanceForAnswerValue_hash hi, balanceForAnswerValue_hash hs, hhd, hd]
          simp [statusBytesFrom, questionBytes, List.append_assoc]

theorem le64_length (v : Nat) : (le64 v).length = 8 := by
  simp [le64]

theorem answerBytes_length (a : AnswerStatus) : (answerBytes a).length = 17 := by
  simp [answerBytes, le64_length]

theorem le64_injective {a b : Nat} (ha : a < 2 ^ 64) (hb : b < 2 ^ 64)
    (h : le64 a = le64 b) : a = b := by
  simp only [le64, List.range, List.range.loop, List.map_cons, List.map_nil, List.cons.injEq,
    and_true] at h
  norm_num at h ha hb
  omega

theorem EventStatus_ok {sha256 : List Nat → List Nat} {pm : ParticipationManager}
    {eventID : EventID} {event : Event} {r : EventStatus}
    (hevent : pm.Event eventID = some event)
    (hok : pm.EventStatus sha256 eventID = .ok r) :
    ∃ statusHash, questionsLoop pm eventID 0 event.BallotQuestions [] [] =
        .ok (r.Questions, statusHash) ∧
      r.Checksum = hexEncodeToString (sha256 statusHash) ∧
      r.MilestoneIndex = pm.ConfirmedMilestoneIndex ∧
      r.Status = event.Status pm.ConfirmedMilestoneIndex := by
  simp only [ParticipationManager.EventStatus, hevent] at hok
  cases hq : questionsLoop pm eventID 0 event.BallotQuestions [] [] with
  | error err => simp [hq] at hok
  | ok res =>
    obtain ⟨questions, h⟩ := res
    simp only [hq, Except.ok.injEq] at hok
    subst hok
    exact ⟨h, rfl, rfl, rfl, rfl⟩

theorem EventStatus_report {sha256 : List Nat → List Nat} {pm : ParticipationManager}
    {eventID : EventID} {event : Event} {r : EventStatus}
    (hevent : pm.Event eventID = some event)
    (hok : pm.EventStatus sha256 eventID = .ok r) :
    r.Checksum = hexEncodeToString (sha256 (statusBytes r.Questions)) ∧
      List.Forall₂ (fun (qs : QuestionStatus) (iq : Nat × Question) =>
        List.Forall₂ (ReportsBalance pm eventID (iq.1 % 256)) qs.Answers (reportedValues iq.2))
        r.Questions event.BallotQuestions.enum := by
  obtain ⟨h, hq, hc, -, -⟩ := EventStatus_ok hevent hok
  obtain ⟨new, hnew, hh⟩ := questionsLoop_hash pm eventID _ _ _ _ _ _ hq
  obtain ⟨new2, hnew2, hf⟩ := questionsLoop_ok pm eventID _ _ _ _ _ _ hq
  simp only [List.nil_append] at hnew hnew2 hh
  subst hnew
  subst hnew2
  exact ⟨by rw [hc, hh, statusBytes], by simpa [List.enum] using hf⟩

theorem digitChar_lowercase (n : Nat) (h : n < 16) :
    Nat.digitChar n ∈ "0123456789abcdef".data := by
  interval_cases n <;> decide

theorem hexEncodeToString_lowercase (bytes : List Nat) :
    ∀ c ∈ (hexEncodeToString bytes).data, c ∈ "0123456789abcdef".data := by
  intro c hc
  simp only [hexEncodeToString, List.mem_flatMap, List.mem_cons, List.mem_singleton,
    List.not_mem_nil, or_false] at hc
  obtain ⟨b, -, rfl | rfl⟩ := hc
  · exact digitChar_lowercase _ (Nat.mod_lt _ (by decide))
  · exact digitChar_lowercase _ (Nat.mod_lt _ (by decide))

/-! ## The checksum -/

/-- C11. Checksum definition: when `EventStatus` succeeds for a known event, the
checksum is the lowercase hex encoding of the SHA-256 digest of the bytes
obtained by concatenating, for each question status in order, the 1-byte
question index and then, for each of its answers in order, the value as 1 byte
and the current and accumulated balance as 8 bytes little-endian each; the
answers are those of the declared values in order, then of 0, then of 255, with
the balances of the store.  For an event without questions the digest is that
of the empty byte string; for one question with the answers 1 and 2 the bytes
are 0, 1, the two balances of 1, 2, the two balances of 2, 0, the two balances
of 0, 255, the two balances of 255. -/
theorem checksum_definition (sha256 : List Nat → List Nat) (pm : ParticipationManager)
    (eventID : EventID) (event : Event) (r : EventStatus)
    (hevent : pm.Event eventID = some event)
    (hok : pm.EventStatus sha256 eventID = .ok r) :
    r.Checksum = hexEncodeToString (sha256 (statusBytes r.Questions)) ∧
    List.Forall₂ (fun (qs : QuestionStatus) (iq : Nat × Question) =>
        List.Forall₂ (ReportsBalance pm eventID (iq.1 % 256)) qs.Answers (reportedValues iq.2))
      r.Questions event.BallotQuestions.enum ∧
    (∀ c ∈ r.Checksum.data, c ∈ "0123456789abcdef".data) ∧
    (event.BallotQuestions = [] → r.Checksum = hexEncodeToString (sha256 [])) ∧
    (event.BallotQuestions = [⟨[⟨1⟩, ⟨2⟩]⟩] →
      ∃ cur1 acc1 cur2 acc2 cur0 acc0 cur255 acc255,
        pm.CurrentBallotVoteBalanceForQuestionAndAnswer eventID 0 1 = .ok cur1 ∧
        pm.AccumulatedBallotVoteBalanceForQuestionAndAnswer eventID 0 1 = .ok acc1 ∧
        pm.CurrentBallotVoteBalanceForQuestionAndAnswer eventID 0 2 = .ok cur2 ∧
        pm.AccumulatedBallotVoteBalanceForQuestionAndAnswer eventID 0 2 = .ok acc2 ∧
        pm.CurrentBallotVoteBalanceForQuestionAndAnswer eventID 0 0 = .ok cur0 ∧
        pm.AccumulatedBallotVoteBalanceForQuestionAndAnswer eventID 0 0 = .ok acc0 ∧
        pm.CurrentBallotVoteBalanceForQuestionAndAnswer eventID 0 255 = .ok cur255 ∧
        pm.AccumulatedBallotVoteBalanceForQuestionAndAnswer eventID 0 255 = .ok acc255 ∧
        r.Checksum = hexEncodeToString (sha256
          ([0, 1] ++ le64 cur1 ++ le64 acc1 ++ [2] ++ le64 cur2 ++ le64 acc2 ++
            [0] ++ le64 cur0 ++ le64 acc0 ++ [255] ++ le64 cur255 ++ le64 acc255))) := by
  obtain ⟨hc, hf⟩ := EventStatus_report hevent hok
  refine ⟨hc, hf, ?_, ?_, ?_⟩
  · rw [hc]
    exact hexEncodeToString_lowercase _
  · intro hq
    rw [hq] at hf
    rw [hc, List.forall₂_nil_right_iff.1 hf]
    rfl
  · intro hq
    rw [hq] at hf
    simp only [List.enum, List.enumFrom, reportedValues, List.map_cons, List.map_nil,
      List.cons_append, List.nil_append, AnswerValueSkipped, AnswerValueInvalid] at hf
    obtain ⟨qs, _, hqs, hnil, hrq⟩ := List.forall₂_cons_right_iff.1 hf
    cases hnil
    obtain ⟨a1, t1, h1, ht1, e1⟩ := List.forall₂_cons_right_iff.1 hqs
    obtain ⟨a2, t2, h2, ht2, e2⟩ := List.forall₂_cons_right_iff.1 ht1
    obtain ⟨a0, t3, h0, ht3, e3⟩ := List.forall₂_cons_right_iff.1 ht2
    obtain ⟨af, t4, hff, ht4, e4⟩ := List.forall₂_cons_right_iff.1 ht3
    cases ht4
    refine ⟨a1.Current, a1.Accumulated, a2.Current, a2.Accumulated, a0.Current,
      a0.Accumulated, af.Current, af.Accumulated, h1.2.1, h1.2.2, h2.2.1, h2.2.2,
      h0.2.1, h0.2.2, hff.2.1, hff.2.2, ?_⟩
    rw [hc, hrq]
    simp [statusBytes, statusBytesFrom, questionBytes, answerBytes, e1, e2, e3, e4, h1.1,
      h2.1, h0.1, hff.1, List.append_assoc]

theorem checksum_definition_witness :
    "00010a00" = hexEncodeToString (demoDigest (statusBytes
      [⟨[⟨1, 10, 1⟩, ⟨2, 20, 2⟩, ⟨0, 0, 0⟩, ⟨255, 2550, 255⟩]⟩])) :=
  (checksum_definition demoDigest demoManager [2]
    { BallotQuestions := [⟨[⟨1⟩, ⟨2⟩]⟩], Status := fun _ => "holding" }
    { MilestoneIndex := 5, Status := "holding",
      Questions := [⟨[⟨1, 10, 1⟩, ⟨2, 20, 2⟩, ⟨0, 0, 0⟩, ⟨255, 2550, 255⟩]⟩],
      Checksum := "00010a00" }
    (by rfl) (by rfl)).1

theorem answers_agree (pm pm2 : ParticipationManager) (eventID : EventID) (k : Nat) :
    ∀ (vals : List Nat) (as as2 : List AnswerStatus) (t t2 : List Nat),
    List.Forall₂ (ReportsBalance pm eventID k) as vals →
    List.Forall₂ (ReportsBalance pm2 eventID k) as2 vals →
    (∀ a ∈ as, a.Current < 2 ^ 64 ∧ a.Accumulated < 2 ^ 64) →
    (∀ a ∈ as2, a.Current < 2 ^ 64 ∧ a.Accumulated < 2 ^ 64) →
    as.flatMap answerBytes ++ t = as2.flatMap answerBytes ++ t2 →
    (∀ v ∈ vals,
      pm.CurrentBallotVoteBalanceForQuestionAndAnswer eventID k v =
          pm2.CurrentBallotVoteBalanceForQuestionAndAnswer eventID k v ∧
        pm.AccumulatedBallotVoteBalanceForQuestionAndAnswer eventID k v =
          pm2.AccumulatedBallotVoteBalanceForQuestionAndAnswer eventID k v) ∧ t = t2
  | [], as, as2, t, t2, h1, h2, _, _, hbytes => by
    rw [List.forall₂_nil_right_iff.1 h1, List.forall₂_nil_right_iff.1 h2] at hbytes
    exact ⟨fun v hv => absurd hv (List.not_mem_nil v), by simpa using hbytes⟩
  | v :: vals, as, as2, t, t2, h1, h2, hb, hb2, hbytes => by
    obtain ⟨a, rest, ha, hrest, rfl⟩ := List.forall₂_cons_right_iff.1 h1
    obtain ⟨a2, rest2, ha2, hrest2, rfl⟩ := List.forall₂_cons_right_iff.1 h2
    simp only [List.flatMap_cons, List.append_assoc] at hbytes
    obtain ⟨hhead, htail⟩ := List.append_inj hbytes
      (by rw [answerBytes_length, answerBytes_length])
    simp only [answerBytes, List.singleton_append, List.cons_append, List.cons.injEq] at hhead
    obtain ⟨hcur, hacc⟩ := List.append_inj hhead.2 (by simp [le64_length])
    simp only [List.nil_append] at hcur
    have hc := le64_injective (hb a (List.mem_cons_self _ _)).1
      (hb2 a2 (List.mem_cons_self _ _)).1 hcur
    have hac := le64_injective (hb a (List.mem_cons_self _ _)).2
      (hb2 a2 (List.mem_cons_self _ _)).2 hacc
    obtain ⟨ih, ht⟩ := answers_agree pm pm2 eventID k vals rest rest2 t t2 hrest hrest2
      (fun x hx => hb x (List.mem_cons_of_mem _ hx))
      (fun x hx => hb2 x (List.mem_cons_of_mem _ hx)) htail
    refine ⟨?_, ht⟩
    intro w hw
    rcases List.mem_cons.1 hw with rfl | hw
    · exact ⟨by rw [ha.2.1, ha2.2.1, hc], by rw [ha.2.2, ha2.2.2, hac]⟩
    · exact ih w hw

theorem questions_agree (pm pm2 : ParticipationManager) (eventID : EventID) :
    ∀ (questions : List Question) (idx : Nat) (qs qs2 : List QuestionStatus),
    List.Forall₂ (fun (q : QuestionStatus) (iq : Nat × Question) =>
      List.Forall₂ (ReportsBalance pm eventID (iq.1 % 256)) q.Answers (reportedValues iq.2))
      qs (questions.enumFrom idx) →
    List.Forall₂ (fun (q : QuestionStatus) (iq : Nat × Question) =>
      List.Forall₂ (ReportsBalance pm2 eventID (iq.1 % 256)) q.Answers (reportedValues iq.2))
      qs2 (questions.enumFrom idx) →
    BalancesFit qs → BalancesFit qs2 →
    statusBytesFrom idx qs = statusBytesFrom idx qs2 →
    ∀ iq ∈ questions.enumFrom idx, ∀ v ∈ reportedValues iq.2,
      pm.CurrentBallotVoteBalanceForQuestionAndAnswer eventID (iq.1 % 256) v =
          pm2.CurrentBallotVoteBalanceForQuestionAndAnswer eventID (iq.1 % 256) v ∧
        pm.AccumulatedBallotVoteBalanceForQuestionAndAnswer eventID (iq.1 % 256) v =
          pm2.AccumulatedBallotVoteBalanceForQuestionAndAnswer eventID (iq.1 % 256) v
  | [], idx, qs, qs2, _, _, _, _, _ => by
    intro iq hiq
    simp at hiq
  | question :: rest, idx, qs, qs2, h1, h2, hb, hb2, hbytes => by
    rw [List.enumFrom_cons] at h1 h2
    obtain ⟨q, qrest, hq, hqrest, rfl⟩ := List.forall₂_cons_right_iff.1 h1
    obtain ⟨q2, qrest2, hq2, hqrest2, rfl⟩ := List.forall₂_cons_right_iff.1 h2
    simp only [statusBytesFrom, questionBytes, List.singleton_append, List.cons_append,
      List.cons.injEq, true_and] at hbytes
    obtain ⟨hthis, htail⟩ := answers_agree pm pm2 eventID (idx % 256) _ _ _ _ _ hq hq2
      (hb q (List.mem_cons_self _ _)) (hb2 q2 (List.mem_cons_self _ _)) hbytes
    have ih := questions_agree pm pm2 eventID rest (idx + 1) qrest qrest2 hqrest hqrest2
      (fun x hx => hb x (List.mem_cons_of_mem _ hx))
      (fun x hx => hb2 x (List.mem_cons_of_mem _ hx)) htail
    intro iq hiq
    rw [List.enumFrom_cons] at hiq
    rcases List.mem_cons.1 hiq with rfl | hiq
    · exact hthis
    · exact ih iq hiq

theorem digitChar_injective {n m : Nat} (hn : n < 16) (hm : m < 16)
    (h : Nat.digitChar n = Nat.digitChar m) : n = m := by
  interval_cases n <;> interval_cases m <;> first | rfl | exact absurd h (by decide)

theorem hexChars_injective : ∀ (a b : List Nat), (∀ x ∈ a, x < 256) →
    (∀ x ∈ b, x < 256) →
    (a.flatMap fun b => [Nat.digitChar (b / 16 % 16), Nat.digitChar (b % 16)]) =
      (b.flatMap fun b => [Nat.digitChar (b / 16 % 16), Nat.digitChar (b % 16)]) → a = b
  | [], [], _, _, _ => rfl
  | [], y :: b, _, _, h => by simp at h
  | x :: a, [], _, _, h => by simp at h
  | x :: a, y :: b, ha, hb, h => by
    simp only [List.flatMap_cons, List.cons_append, List.nil_append, List.cons.injEq] at h
    obtain ⟨h1, h2, h3⟩ := h
    have hx := ha x (List.mem_cons_self _ _)
    have hy := hb y (List.mem_cons_self _ _)
    have e1 := digitChar_injective (Nat.mod_lt _ (by decide)) (Nat.mod_lt _ (by decide)) h1
    have e2 := digitChar_injective (Nat.mod_lt _ (by decide)) (Nat.mod_lt _ (by decide)) h2
    have hxy : x = y := by omega
    have := hexChars_injective a b (fun z hz => ha z (List.mem_cons_of_mem _ hz))
      (fun z hz => hb z (List.mem_cons_of_mem _ hz)) h3
    rw [hxy, this]

/-- Distinct byte strings have distinct hex encodings. -/
theorem hexEncodeToString_injective (a b : List Nat) (ha : ∀ x ∈ a, x < 256)
    (hb : ∀ x ∈ b, x < 256) (h : hexEncodeToString a = hexEncodeToString b) : a = b :=
  hexChars_injective a b ha hb (congrArg String.data h)

/-- C12. Checksum sensitivity: for a fixed event definition, when two stores differ
in the current or in the accumulated balance they return for one answer value
of one question (a declared value, 0 or 255), the byte sequences fed to SHA-256
by the two computations differ, and so do the checksums unless the two digests
collide.  Balances are `uint64` values and a digest is a byte string. -/
theorem checksum_sensitivity (sha256 : List Nat → List Nat) (pm pm2 : ParticipationManager)
    (eventID : EventID) (event : Event) (r r2 : EventStatus) (i : Nat) (question : Question)
    (v : Nat)
    (hevent : pm.Event eventID = some event) (hevent2 : pm2.Event eventID = some event)
    (hok : pm.EventStatus sha256 eventID = .ok r)
    (hok2 : pm2.EventStatus sha256 eventID = .ok r2)
    (hfit : BalancesFit r.Questions) (hfit2 : BalancesFit r2.Questions)
    (hq : event.BallotQuestions[i]? = some question) (hv : v ∈ reportedValues question)
    (hdiff : pm.CurrentBallotVoteBalanceForQuestionAndAnswer eventID (i % 256) v ≠
        pm2.CurrentBallotVoteBalanceForQuestionAndAnswer eventID (i % 256) v ∨
      pm.AccumulatedBallotVoteBalanceForQuestionAndAnswer eventID (i % 256) v ≠
        pm2.AccumulatedBallotVoteBalanceForQuestionAndAnswer eventID (i % 256) v) :
    statusBytes r.Questions ≠ statusBytes r2.Questions ∧
      ((∀ x, ∀ b ∈ sha256 x, b < 256) →
        sha256 (statusBytes r.Questions) ≠ sha256 (statusBytes r2.Questions) →
        r.Checksum ≠ r2.Checksum) := by
  obtain ⟨hc, hf⟩ := EventStatus_report hevent hok
  obtain ⟨hc2, hf2⟩ := EventStatus_report hevent2 hok2
  constructor
  · intro hbytes
    have hagree := questions_agree pm pm2 eventID event.BallotQuestions 0 r.Questions
      r2.Questions hf hf2 hfit hfit2 hbytes (i, question)
      (List.mk_mem_enum_iff_getElem?.2 hq) v hv
    rcases hdiff with hd | hd
    · exact hd hagree.1
    · exact hd hagree.2
  · intro hbyte hdigest hsum
    rw [hc, hc2] at hsum
    exact hdigest (hexEncodeToString_injective _ _ (hbyte _) (hbyte _) hsum)

theorem checksum_sensitivity_witness :
    statusBytes [⟨[⟨1, 10, 1⟩, ⟨2, 20, 2⟩, ⟨0, 0, 0⟩, ⟨255, 2550, 255⟩]⟩] ≠
      statusBytes [⟨[⟨1, 11, 1⟩, ⟨2, 21, 2⟩, ⟨0, 1, 0⟩, ⟨255, 2551, 255⟩]⟩] :=
  (checksum_sensitivity demoDigest demoManager demoManagerShifted [2]
    { BallotQuestions := [⟨[⟨1⟩, ⟨2⟩]⟩], Status := fun _ => "holding" }
    { MilestoneIndex := 5, Status := "holding",
      Questions := [⟨[⟨1, 10, 1⟩, ⟨2, 20, 2⟩, ⟨0, 0, 0⟩, ⟨255, 2550, 255⟩]⟩],
      Checksum := "00010a00" }
    { MilestoneIndex := 5, Status := "holding",
      Questions := [⟨[⟨1, 11, 1⟩, ⟨2, 21, 2⟩, ⟨0, 1, 0⟩, ⟨255, 2551, 255⟩]⟩],
      Checksum := "00010b00" }
    0 ⟨[⟨1⟩, ⟨2⟩]⟩ 1 (by rfl) (by rfl) (by rfl) (by rfl)
    (by unfold BalancesFit; decide) (by unfold BalancesFit; decide) (by rfl)
    (by decide) (Or.inl (fun h => by cases h))).1

/-! ## Lemmas on determinism and failure -/

theorem balanceForAnswerValue_congr (pm pm2 : ParticipationManager) (eventID eventID2 : EventID)
    (hcur : ∀ qi v, pm.CurrentBallotVoteBalanceForQuestionAndAnswer eventID qi v =
      pm2.CurrentBallotVoteBalanceForQuestionAndAnswer eventID2 qi v)
    (hacc : ∀ qi v, pm.AccumulatedBallotVoteBalanceForQuestionAndAnswer eventID qi v =
      pm2.AccumulatedBallotVoteBalanceForQuestionAndAnswer eventID2 qi v)
    (questionIndex v : Nat) (h : List Nat) :
    balanceForAnswerValue pm eventID questionIndex v h =
      balanceForAnswerValue pm2 eventID2 questionIndex v h := by
  unfold balanceForAnswerValue
  rw [hcur, hacc]

theorem validAnswersLoop_congr (pm pm2 : ParticipationManager) (eventID eventID2 : EventID)
    (hcur : ∀ qi v, pm.CurrentBallotVoteBalanceForQuestionAndAnswer eventID qi v =
      pm2.CurrentBallotVoteBalanceForQuestionAndAnswer eventID2 qi v)
    (hacc : ∀ qi v, pm.AccumulatedBallotVoteBalanceForQuestionAndAnswer eventID qi v =
      pm2.AccumulatedBallotVoteBalanceForQuestionAndAnswer eventID2 qi v)
    (questionIndex : Nat) : ∀ (answers : List Answer) (qs : QuestionStatus) (h : List Nat),
    validAnswersLoop pm eventID questionIndex answers qs h =
      validAnswersLoop pm2 eventID2 questionIndex answers qs h
  | [], qs, h => rfl
  | answer :: rest, qs, h => by
    simp only [validAnswersLoop,
      balanceForAnswerValue_congr pm pm2 eventID eventID2 hcur hacc]
    rcases balanceForAnswerValue pm2 eventID2 questionIndex answer.Value h with _ | ⟨a, h1⟩
    · rfl
    · exact validAnswersLoop_congr pm pm2 eventID eventID2 hcur hacc questionIndex rest _ _

theorem questionsLoop_congr (pm pm2 : ParticipationManager) (eventID eventID2 : EventID)
    (hcur : ∀ qi v, pm.CurrentBallotVoteBalanceForQuestionAndAnswer eventID qi v =
      pm2.CurrentBallotVoteBalanceForQuestionAndAnswer eventID2 qi v)
    (hacc : ∀ qi v, pm.AccumulatedBallotVoteBalanceForQuestionAndAnswer eventID qi v =
      pm2.AccumulatedBallotVoteBalanceForQuestionAndAnswer eventID2 qi v) :
    ∀ (questions : List Question) (idx : Nat) (acc : List QuestionStatus) (h : List Nat),
    questionsLoop pm eventID idx questions acc h =
      questionsLoop pm2 eventID2 idx questions acc h
  | [], idx, acc, h => rfl
  | question :: rest, idx, acc, h => by
    simp only [questionsLoop,
      balanceForAnswerValue_congr pm pm2 eventID eventID2 hcur hacc,
      validAnswersLoop_congr pm pm2 eventID eventID2 hcur hacc]
    rcases validAnswersLoop pm2 eventID2 (idx % 256) question.QuestionAnswers
      { Answers := [] } (h ++ [idx % 256]) with _ | ⟨qs, h1⟩
    · rfl
    · simp only []
      rcases balanceForAnswerValue pm2 eventID2 (idx % 256) AnswerValueSkipped h1 with
        _ | ⟨skipped, h2⟩
      · rfl
      · simp only []
        rcases balanceForAnswerValue pm2 eventID2 (idx % 256) AnswerValueInvalid h2 with
          _ | ⟨invalid, h3⟩
        · rfl
        · exact questionsLoop_congr pm pm2 eventID eventID2 hcur hacc rest _ _ _

theorem firstFailure_split (pm : ParticipationManager) (eventID : EventID) (l : Lookup)
    (post : List Lookup) (e : Error) (hl : l.run pm eventID = .error e) :
    ∀ (pre : List Lookup), (∀ x ∈ pre, ∃ c, x.run pm eventID = .ok c) →
      firstFailure pm eventID (pre ++ l :: post) = some e ∧
        lookupsUntilFailure pm eventID (pre ++ l :: post) = pre ++ [l]
  | [], _ => by simp [firstFailure, lookupsUntilFailure, hl]
  | x :: pre, hpre => by
    obtain ⟨c, hc⟩ := hpre x (List.mem_cons_self _ _)
    obtain ⟨h1, h2⟩ := firstFailure_split pm eventID l post e hl pre
      fun y hy => hpre y (List.mem_cons_of_mem _ hy)
    simp only [List.cons_append, firstFailure, lookupsUntilFailure, hc]
    exact ⟨h1, by rw [← h2]; rfl⟩

theorem errorOf_eq_some {α : Type} {r : Except Error α} {e : Error}
    (h : errorOf r = some e) : r = .error e := by
  cases r with
  | error err => simp only [errorOf, Option.some.injEq] at h; rw [h]
  | ok a => simp [errorOf] at h

/-! ## Determinism and failure of the event status -/

/-- C13. Determinism: two `EventStatus` computations that find the same event
definition, read the same confirmed milestone index and get the same answers
from the balance store return the same result, report and checksum included,
whatever the managers and the event identifiers otherwise are. -/
theorem event_status_deterministic (sha256 : List Nat → List Nat)
    (pm pm2 : ParticipationManager) (eventID eventID2 : EventID) (event : Event)
    (hevent : pm.Event eventID = some event) (hevent2 : pm2.Event eventID2 = some event)
    (hindex : pm.ConfirmedMilestoneIndex = pm2.ConfirmedMilestoneIndex)
    (hcur : ∀ qi v, pm.CurrentBallotVoteBalanceForQuestionAndAnswer eventID qi v =
      pm2.CurrentBallotVoteBalanceForQuestionAndAnswer eventID2 qi v)
    (hacc : ∀ qi v, pm.AccumulatedBallotVoteBalanceForQuestionAndAnswer eventID qi v =
      pm2.AccumulatedBallotVoteBalanceForQuestionAndAnswer eventID2 qi v) :
    pm.EventStatus sha256 eventID = pm2.EventStatus sha256 eventID2 := by
  simp only [ParticipationManager.EventStatus, hevent, hevent2, hindex,
    questionsLoop_congr pm pm2 eventID eventID2 hcur hacc]

theorem event_status_deterministic_witness :
    demoManager.EventStatus demoDigest [2] = demoManagerRenamed.EventStatus demoDigest [9] :=
  event_status_deterministic demoDigest demoManager demoManagerRenamed [2] [9]
    { BallotQuestions := [⟨[⟨1⟩, ⟨2⟩]⟩], Status := fun _ => "holding" }
    (by rfl) (by rfl) (by rfl) (fun _ _ => rfl) (fun _ _ => rfl)

/-- C14. Event not found: for an event identifier unknown to the event store,
`EventStatus` returns `ErrEventNotFound` and no status, and makes no balance
lookup. -/
theorem event_not_found (sha256 : List Nat → List Nat) (pm : ParticipationManager)
    (eventID : EventID) (hunknown : pm.Event eventID = none) :
    pm.EventStatus sha256 eventID = .error .ErrEventNotFound ∧
      pm.EventStatusLogged sha256 eventID = (.error .ErrEventNotFound, []) := by
  simp [ParticipationManager.EventStatus, ParticipationManager.EventStatusLogged, hunknown]

theorem event_not_found_witness :
    demoManager.EventStatus demoDigest [3] = .error .ErrEventNotFound ∧
      demoManager.EventStatusLogged demoDigest [3] = (.error .ErrEventNotFound, []) :=
  event_not_found demoDigest demoManager [3] (by rfl)

/-- C15. Lookup failure aborts: for a known event, when in the traversal order of
the lookups (questions in order; per question the declared answer values, then
0, then 255; per value the current lookup before the accumulated one) every
lookup before `l` succeeds and `l` fails with error `e`, `EventStatus` returns
exactly `e` and no status, and the lookups made are those up to and including
`l`. -/
theorem lookup_failure_aborts (sha256 : List Nat → List Nat) (pm : ParticipationManager)
    (eventID : EventID) (event : Event) (pre post : List Lookup) (l : Lookup) (e : Error)
    (hevent : pm.Event eventID = some event)
    (horder : lookupOrder event = pre ++ l :: post)
    (hpre : ∀ x ∈ pre, ∃ c, x.run pm eventID = .ok c)
    (hl : l.run pm eventID = .error e) :
    pm.EventStatus sha256 eventID = .error e ∧
      (pm.EventStatusLogged sha256 eventID).2 = pre ++ [l] := by
  obtain ⟨h1, h2⟩ := EventStatusLogged_spec sha256 pm eventID event hevent
  obtain ⟨hf, hu⟩ := firstFailure_split pm eventID l post e hl pre hpre
  rw [horder] at h1 h2
  exact ⟨errorOf_eq_some (h1.trans hf), h2.trans hu⟩

theorem lookup_failure_aborts_witness :
    demoManagerFailing.EventStatus demoDigest [2] = .error (.external 7) ∧
      (demoManagerFailing.EventStatusLogged demoDigest [2]).2 =
        [.current 0 1, .accumulated 0 1, .current 0 2] ++ [.accumulated 0 2] :=
  lookup_failure_aborts demoDigest demoManagerFailing [2]
    { BallotQuestions := [⟨[⟨1⟩, ⟨2⟩]⟩], Status := fun _ => "holding" }
    [.current 0 1, .accumulated 0 1, .current 0 2]
    [.current 0 0, .accumulated 0 0, .current 0 255, .accumulated 0 255] (.accumulated 0 2)
    (.external 7) (by rfl) (by rfl)
    (by
      intro x hx
      simp only [List.mem_cons, List.mem_singleton, List.not_mem_nil, or_false] at hx
      rcases hx with rfl | rfl | rfl
      · exact ⟨_, rfl⟩
      · exact ⟨_, rfl⟩
      · exact ⟨_, rfl⟩)
    (by rfl)

/-! ## Answer lookup, error priority, JSON without validation -/

theorem statusForAnswerValueLoop_eq_none (v : Nat) : ∀ (answers : List AnswerStatus),
    statusForAnswerValueLoop v answers = none ↔ ∀ a ∈ answers, a.Value ≠ v
  | [] => by simp [statusForAnswerValueLoop]
  | a :: rest => by
    simp only [statusForAnswerValueLoop, List.mem_cons, forall_eq_or_imp]
    by_cases h : a.Value = v
    · simp [h]
    · simp [h, statusForAnswerValueLoop_eq_none v rest]

theorem statusForAnswerValueLoop_eq_some (v : Nat) (a : AnswerStatus) :
    ∀ (answers : List AnswerStatus),
    statusForAnswerValueLoop v answers = some a ↔
      ∃ pre post, answers = pre ++ a :: post ∧ a.Value = v ∧ ∀ b ∈ pre, b.Value ≠ v
  | [] => by simp [statusForAnswerValueLoop]
  | x :: rest => by
    simp only [statusForAnswerValueLoop]
    by_cases h : x.Value = v
    · simp only [h, if_true, Option.some.injEq]
      constructor
      · rintro rfl
        exact ⟨[], rest, rfl, h, by simp⟩
      · rintro ⟨pre, post, heq, -, hpre⟩
        cases pre with
        | nil => simp only [List.nil_append, List.cons.injEq] at heq; exact heq.1
        | cons y pre =>
          simp only [List.cons_append, List.cons.injEq] at heq
          exact absurd h (heq.1 ▸ hpre y (List.mem_cons_self _ _))
    · simp only [h, if_false, statusForAnswerValueLoop_eq_some v a rest]
      constructor
      · rintro ⟨pre, post, rfl, hv, hpre⟩
        refine ⟨x :: pre, post, rfl, hv, ?_⟩
        intro b hb
        rcases List.mem_cons.1 hb with rfl | hb
        · exact h
        · exact hpre b hb
      · rintro ⟨pre, post, heq, hv, hpre⟩
        cases pre with
        | nil =>
          simp only [List.nil_append, List.cons.injEq] at heq
          exact absurd (heq.1 ▸ hv) h
        | cons y pre =>
          simp only [List.cons_append, List.cons.injEq] at heq
          exact ⟨pre, post, heq.2, hv, fun b hb => hpre b (List.mem_cons_of_mem _ hb)⟩

/-- C16. Answer lookup: `StatusForAnswerValue(v)` returns nothing exactly when no
recorded answer of the question status has the value `v`; otherwise it returns
the first recorded answer, in sequence order, whose value is `v`. -/
theorem status_for_answer_value (q : QuestionStatus) (v : Nat) :
    (q.StatusForAnswerValue v = none ↔ ∀ a ∈ q.Answers, a.Value ≠ v) ∧
      ∀ a, q.StatusForAnswerValue v = some a ↔
        ∃ pre post, q.Answers = pre ++ a :: post ∧ a.Value = v ∧ ∀ b ∈ pre, b.Value ≠ v :=
  ⟨statusForAnswerValueLoop_eq_none v q.Answers,
    fun a => statusForAnswerValueLoop_eq_some v a q.Answers⟩

/-- C17. Error priority in validated encode: for a collection of 256 or more
participations two of which target the same event, `Serialize` with validation
reports the bounds error and not `ErrMultipleEventParticipation`, although the
duplicate check, had it run, would have reported the latter. -/
theorem bounds_error_before_duplicate_error (codec : RecordCodec)
    (mode : DeSerializationMode) (ps : List Participation)
    (hv : HasMode mode DeSeriModePerformValidation = true)
    (hlen : 256 ≤ ps.length)
    (hdup : ¬ (ps.map (·.EventID)).Nodup) :
    Participations.Serialize codec (Participations.ofRecords ps) mode =
        .error (.unableToSerialize (.ErrArrayValidationMaxElementsExceeded 255 ps.length)) ∧
      Participations.Serialize codec (Participations.ofRecords ps) mode ≠
        .error .ErrMultipleEventParticipation ∧
      seenEventsLoop (Participations.ofRecords ps).Participations [] =
        some .ErrMultipleEventParticipation := by
  have hser : Participations.Serialize codec (Participations.ofRecords ps) mode =
      .error (.unableToSerialize (.ErrArrayValidationMaxElementsExceeded 255 ps.length)) := by
    rw [Serialize_validated codec _ mode hv]
    have hcb : participationsArrayRules.CheckBounds
        (Participations.ofRecords ps).Participations.length =
        some (.ErrArrayValidationMaxElementsExceeded 255 ps.length) := by
      simp only [ArrayRules.CheckBounds, participationsArrayRules,
        ParticipationsMinParticipationCount, ParticipationsMaxParticipationCount,
        Participations.ofRecords, List.length_map]
      rw [if_neg (by omega), if_pos ⟨by decide, by omega⟩]
    rw [hcb]
  refine ⟨hser, ?_, ?_⟩
  · rw [hser]
    intro h
    cases h
  · simp [Participations.ofRecords, seenEventsLoop_records, hdup]

theorem bounds_error_before_duplicate_error_witness :
    Participations.Serialize demoCodec
        (Participations.ofRecords (List.replicate 256 ⟨[7], []⟩))
        DeSeriModePerformValidation =
      .error (.unableToSerialize (.ErrArrayValidationMaxElementsExceeded 255
        (List.replicate 256 (⟨[7], []⟩ : Participation)).length)) :=
  (bounds_error_before_duplicate_error demoCodec DeSeriModePerformValidation
    (List.replicate 256 ⟨[7], []⟩) (by decide)
    (by rw [List.length_replicate])
    (by rw [List.map_replicate, List.nodup_replicate]; decide)).1

/-- C18. The JSON path applies no collection validation: when every element of
the `participations` array parses as a participation, `UnmarshalJSON` succeeds
with the parsed records, and when every record renders and the JSON library
writes the wrapper, `MarshalJSON` succeeds; neither asks anything of the number
of elements or of their event identifiers, so an empty array, more than 255
elements and two elements for the same event are all accepted. -/
theorem json_no_collection_validation (lib : WrapperJSON) (codec : RecordCodec)
    (p0 x : participation.Participations) (bytes : List Nat) (j : jsonParticipations)
    (ps : List Participation) (raws : List (List Nat)) (b : List Nat)
    (hread : lib.Unmarshal bytes = .ok j)
    (hparse : List.Forall₂
      (fun ele p => ∃ raw, ele = some raw ∧ codec.UnmarshalJSON raw = .ok p)
      j.Participations ps)
    (hrender : List.Forall₂ (fun s raw => codec.MarshalJSON s = .ok raw) x.Participations raws)
    (hwrite : lib.Marshal { Participations := raws.map some } = .ok b) :
    Participations.UnmarshalJSON lib codec p0 bytes =
        (Participations.ofRecords ps, .returns none) ∧
      Participations.MarshalJSON lib codec x = .ok b ∧
      (j.Participations = [] →
        Participations.UnmarshalJSON lib codec p0 bytes =
          ({ Participations := [] }, .returns none)) := by
  have hu : Participations.UnmarshalJSON lib codec p0 bytes =
      (Participations.ofRecords ps, .returns none) := by
    simp [Participations.UnmarshalJSON, hread, jsonParticipations.ToSerializable,
      toSerializableLoop_ok codec hparse, Participations.ofRecords]
  refine ⟨hu, ?_, ?_⟩
  · simp [Participations.MarshalJSON, marshalLoop_ok codec hrender, hwrite]
  · intro hempty
    rw [hempty] at hparse
    rw [hu, List.forall₂_nil_left_iff.1 hparse]
    rfl

theorem json_no_collection_validation_witness :
    Participations.UnmarshalJSON demoJSON demoCodec ⟨[]⟩ [2, 7, 1, 2, 7, 1] =
        (Participations.ofRecords [⟨[7], [1]⟩, ⟨[7], [1]⟩], .returns none) ∧
      Participations.MarshalJSON demoJSON demoCodec { Participations := [] } = .ok [] :=
  have h := json_no_collection_validation demoJSON demoCodec ⟨[]⟩ { Participations := [] }
    [2, 7, 1, 2, 7, 1] { Participations := [some [7, 1], some [7, 1]] }
    [⟨[7], [1]⟩, ⟨[7], [1]⟩] [] []
    (by rfl)
    (List.Forall₂.cons ⟨_, rfl, rfl⟩ (List.Forall₂.cons ⟨_, rfl, rfl⟩ List.Forall₂.nil))
    List.Forall₂.nil (by rfl)
  ⟨h.1, h.2.1⟩

/-! ## Lemmas on positions in a report -/

theorem forall₂_getElem?_right {α β : Type} {R : α → β → Prop} :
    ∀ {l1 : List α} {l2 : List β}, List.Forall₂ R l1 l2 → ∀ (i : Nat) (b : β),
      l2[i]? = some b → ∃ a, l1[i]? = some a ∧ R a b
  | _, _, .nil, i, b, h => by simp at h
  | _, _, .cons hab hrest, 0, b, h => by
    simp only [List.getElem?_cons_zero, Option.some.injEq] at h
    exact ⟨_, by simp, h ▸ hab⟩
  | _, _, .cons _ hrest, i + 1, b, h => by
    simp only [List.getElem?_cons_succ] at h ⊢
    exact forall₂_getElem?_right hrest i b h

theorem forall₂_getElem?_left {α β : Type} {R : α → β → Prop} :
    ∀ {l1 : List α} {l2 : List β}, List.Forall₂ R l1 l2 → ∀ (i : Nat) (a : α),
      l1[i]? = some a → ∃ b, l2[i]? = some b ∧ R a b
  | _, _, .nil, i, a, h => by simp at h
  | _, _, .cons hab hrest, 0, a, h => by
    simp only [List.getElem?_cons_zero, Option.some.injEq] at h
    exact ⟨_, by simp, h ▸ hab⟩
  | _, _, .cons _ hrest, i + 1, a, h => by
    simp only [List.getElem?_cons_succ] at h ⊢
    exact forall₂_getElem?_left hrest i a h

theorem reportsBalance_unique (pm : ParticipationManager) (eventID : EventID) (k : Nat) :
    ∀ (vals : List Nat) (as as2 : List AnswerStatus),
    List.Forall₂ (ReportsBalance pm eventID k) as vals →
    List.Forall₂ (ReportsBalance pm eventID k) as2 vals → as = as2
  | [], as, as2, h1, h2 => by
    rw [List.forall₂_nil_right_iff.1 h1, List.forall₂_nil_right_iff.1 h2]
  | v :: vals, as, as2, h1, h2 => by
    obtain ⟨a, rest, ha, hrest, rfl⟩ := List.forall₂_cons_right_iff.1 h1
    obtain ⟨a2, rest2, ha2, hrest2, rfl⟩ := List.forall₂_cons_right_iff.1 h2
    have hc : a.Current = a2.Current := Except.ok.inj (ha.2.1.symm.trans ha2.2.1)
    have hacc : a.Accumulated = a2.Accumulated := Except.ok.inj (ha.2.2.symm.trans ha2.2.2)
    have hval : a.Value = a2.Value := ha.1.trans ha2.1.symm
    have haa : a = a2 := by
      cases a
      cases a2
      simp only at hc hacc hval
      rw [hc, hacc, hval]
    rw [haa, reportsBalance_unique pm eventID k vals rest rest2 hrest hrest2]

theorem statusBytesFrom_eq_flatMap : ∀ (questions : List QuestionStatus) (idx : Nat),
    statusBytesFrom idx questions =
      (questions.enumFrom idx).flatMap fun iq =>
        (iq.1 % 256) :: iq.2.Answers.flatMap answerBytes
  | [], idx => rfl
  | qs :: rest, idx => by
    simp [statusBytesFrom, questionBytes, statusBytesFrom_eq_flatMap rest (idx + 1),
      List.enumFrom_cons, List.flatMap_cons]

theorem lookupOrderFrom_eq_flatMap : ∀ (questions : List Question) (idx : Nat),
    lookupOrderFrom idx questions =
      (questions.enumFrom idx).flatMap fun iq => lookupOrderOfQuestion (iq.1 % 256) iq.2
  | [], idx => rfl
  | question :: rest, idx => by
    simp [lookupOrderFrom, lookupOrderFrom_eq_flatMap rest (idx + 1), List.enumFrom_cons,
      List.flatMap_cons]

theorem lookup_reported (pm : ParticipationManager) (eventID : EventID) (k : Nat)
    (vals2 : List Nat) : ∀ (vals1 : List Nat) (as : List AnswerStatus),
    List.Forall₂ (ReportsBalance pm eventID k) as (vals1 ++ vals2) →
    ∀ v ∈ vals1, ∃ a pre post, statusForAnswerValueLoop v as = some a ∧
      ReportsBalance pm eventID k a v ∧ as = pre ++ a :: post ∧
      pre.length < vals1.length ∧ ∀ b ∈ pre, b.Value ≠ v
  | [], as, _, v, hv => absurd hv (List.not_mem_nil v)
  | w :: vals1, as, h, v, hv => by
    rw [List.cons_append] at h
    obtain ⟨a, rest, ha, hrest, rfl⟩ := List.forall₂_cons_right_iff.1 h
    by_cases hav : a.Value = v
    · have hwv : w = v := ha.1.symm.trans hav
      subst hwv
      exact ⟨a, [], rest, by simp [statusForAnswerValueLoop, hav], ha, rfl, by simp, by simp⟩
    · have hv1 : v ∈ vals1 := by
        rcases List.mem_cons.1 hv with rfl | hv1
        · exact absurd ha.1 hav
        · exact hv1
      obtain ⟨a2, pre, post, hfound, hrep, rfl, hlen, hpre⟩ :=
        lookup_reported pm eventID k vals2 vals1 rest hrest v hv1
      refine ⟨a2, a :: pre, post, ?_, hrep, rfl, by simpa using hlen, ?_⟩
      · simp only [statusForAnswerValueLoop, hav, if_false]
        exact hfound
      · intro b hb
        rcases List.mem_cons.1 hb with rfl | hb
        · exact hav
        · exact hpre b hb

/-! ## Question index and lookup on a report -/

/-- C19. Question index truncation: when `EventStatus` succeeds, the question at
declaration position i is hashed under the byte i mod 256 and its balances are
looked up under the question index i mod 256.  For an event with at most 256
questions the index is the position itself.  For questions at the positions i
and i + 256 the index is the same, the same lookups are made, and with equal
declared answers their question statuses are identical. -/
theorem question_index_truncation (sha256 : List Nat → List Nat) (pm : ParticipationManager)
    (eventID : EventID) (event : Event) (r : EventStatus)
    (hevent : pm.Event eventID = some event)
    (hok : pm.EventStatus sha256 eventID = .ok r) :
    r.Checksum = hexEncodeToString (sha256 (r.Questions.enum.flatMap fun iq =>
      (iq.1 % 256) :: iq.2.Answers.flatMap answerBytes)) ∧
    (pm.EventStatusLogged sha256 eventID).2 =
      event.BallotQuestions.enum.flatMap (fun iq => lookupOrderOfQuestion (iq.1 % 256) iq.2) ∧
    (event.BallotQuestions.length ≤ 256 →
      r.Checksum = hexEncodeToString (sha256 (r.Questions.enum.flatMap fun iq =>
        iq.1 :: iq.2.Answers.flatMap answerBytes)) ∧
      (pm.EventStatusLogged sha256 eventID).2 =
        event.BallotQuestions.enum.flatMap (fun iq => lookupOrderOfQuestion iq.1 iq.2)) ∧
    (∀ i q q2, event.BallotQuestions[i]? = some q →
      event.BallotQuestions[i + 256]? = some q2 →
      (i + 256) % 256 = i % 256 ∧
      (q.QuestionAnswers = q2.QuestionAnswers →
        lookupOrderOfQuestion ((i + 256) % 256) q2 = lookupOrderOfQuestion (i % 256) q ∧
        ∃ qs, r.Questions[i]? = some qs ∧ r.Questions[i + 256]? = some qs)) := by
  obtain ⟨hc, hf⟩ := EventStatus_report hevent hok
  obtain ⟨hff, hlog⟩ := EventStatusLogged_spec sha256 pm eventID event hevent
  rw [hok] at hff
  simp only [errorOf] at hff
  rw [lookupsUntilFailure_of_none pm eventID _ hff.symm, lookupOrder,
    lookupOrderFrom_eq_flatMap] at hlog
  have hbytes : statusBytes r.Questions = r.Questions.enum.flatMap fun iq =>
      (iq.1 % 256) :: iq.2.Answers.flatMap answerBytes := by
    rw [statusBytes, statusBytesFrom_eq_flatMap]
    rfl
  have hlen : r.Questions.length = event.BallotQuestions.length := by
    simpa using hf.length_eq
  refine ⟨by rw [hc, hbytes], hlog, ?_, ?_⟩
  · intro hn
    constructor
    · rw [hc, hbytes]
      congr 2
      apply List.flatMap_congr
      intro iq hiq
      have hlt := List.fst_lt_of_mem_enum hiq
      rw [Nat.mod_eq_of_lt (by omega)]
    · rw [hlog]
      apply List.flatMap_congr
      intro iq hiq
      have hlt := List.fst_lt_of_mem_enum hiq
      rw [Nat.mod_eq_of_lt (by omega)]
  · intro i q q2 hq hq2
    refine ⟨by omega, fun hanswers => ?_⟩
    have hmod : (i + 256) % 256 = i % 256 := by omega
    have hqq : q2 = q := by
      cases q
      cases q2
      simp only at hanswers
      rw [hanswers]
    subst hqq
    refine ⟨by rw [hmod], ?_⟩
    obtain ⟨qs, hqs, hr⟩ := forall₂_getElem?_right hf i (i, q2)
      (by rw [List.getElem?_enum, hq]; rfl)
    obtain ⟨qs2, hqs2, hr2⟩ := forall₂_getElem?_right hf (i + 256) (i + 256, q2)
      (by rw [List.getElem?_enum, hq2]; rfl)
    simp only [hmod] at hr2
    have hanswers2 := reportsBalance_unique pm eventID _ _ _ _ hr2 hr
    have : qs2 = qs := by
      cases qs
      cases qs2
      simp only at hanswers2
      rw [hanswers2]
    exact ⟨qs, hqs, by rw [hqs2, this]⟩

theorem question_index_truncation_witness :
    (demoManager.EventStatusLogged demoDigest [2]).2 =
      (List.enum [(⟨[⟨1⟩, ⟨2⟩]⟩ : Question)]).flatMap
        (fun iq => lookupOrderOfQuestion (iq.1 % 256) iq.2) :=
  (question_index_truncation demoDigest demoManager [2]
    { BallotQuestions := [⟨[⟨1⟩, ⟨2⟩]⟩], Status := fun _ => "holding" }
    { MilestoneIndex := 5, Status := "holding",
      Questions := [⟨[⟨1, 10, 1⟩, ⟨2, 20, 2⟩, ⟨0, 0, 0⟩, ⟨255, 2550, 255⟩]⟩],
      Checksum := "00010a00" }
    (by rfl) (by rfl)).2.1

/-- C20. Lookup on a computed report: for every question status of a successful
`EventStatus` result, at position i, `StatusForAnswerValue(0)` and
`StatusForAnswerValue(255)` are found, and for every declared answer value `v`
of the question at position i `StatusForAnswerValue(v)` is found, with value `v`
and the balances the store returned for the event, the question index i mod 256
and `v`; the entry returned for a declared value is one of the declared
entries, also when the value is 0 or 255. -/
theorem lookup_on_report (sha256 : List Nat → List Nat) (pm : ParticipationManager)
    (eventID : EventID) (event : Event) (r : EventStatus) (i : Nat) (qs : QuestionStatus)
    (hevent : pm.Event eventID = some event)
    (hok : pm.EventStatus sha256 eventID = .ok r)
    (hqs : r.Questions[i]? = some qs) :
    ∃ question, event.BallotQuestions[i]? = some question ∧
      (∃ a, qs.StatusForAnswerValue AnswerValueSkipped = some a ∧
        ReportsBalance pm eventID (i % 256) a AnswerValueSkipped) ∧
      (∃ a, qs.StatusForAnswerValue AnswerValueInvalid = some a ∧
        ReportsBalance pm eventID (i % 256) a AnswerValueInvalid) ∧
      ∀ v ∈ question.QuestionAnswers.map (·.Value),
        ∃ a pre post, qs.StatusForAnswerValue v = some a ∧
          ReportsBalance pm eventID (i % 256) a v ∧
          qs.Answers = pre ++ a :: post ∧
          pre.length < question.QuestionAnswers.length ∧ ∀ b ∈ pre, b.Value ≠ v := by
  obtain ⟨-, hf⟩ := EventStatus_report hevent hok
  obtain ⟨iq, hiq, hr⟩ := forall₂_getElem?_left hf i qs hqs
  rw [List.getElem?_enum] at hiq
  cases hq : event.BallotQuestions[i]? with
  | none => simp [hq] at hiq
  | some question =>
    simp only [hq, Option.map_some', Option.some.injEq] at hiq
    subst hiq
    simp only at hr
    have hall := lookup_reported pm eventID (i % 256) [] (reportedValues question) qs.Answers
      (by simpa using hr)
    refine ⟨question, rfl, ?_, ?_, ?_⟩
    · obtain ⟨a, -, -, hfound, hrep, -⟩ := hall AnswerValueSkipped (by simp [reportedValues])
      exact ⟨a, hfound, hrep⟩
    · obtain ⟨a, -, -, hfound, hrep, -⟩ := hall AnswerValueInvalid (by simp [reportedValues])
      exact ⟨a, hfound, hrep⟩
    · intro v hv
      obtain ⟨a, pre, post, hfound, hrep, hsplit, hlen, hpre⟩ :=
        lookup_reported pm eventID (i % 256) [AnswerValueSkipped, AnswerValueInvalid]
          (question.QuestionAnswers.map (·.Value)) qs.Answers
          (by unfold reportedValues at hr; exact hr) v hv
      exact ⟨a, pre, post, hfound, hrep, hsplit, by simpa using hlen, hpre⟩

theorem lookup_on_report_witness :
    ∃ question, ([(⟨[⟨1⟩, ⟨2⟩]⟩ : Question)])[0]? = some question ∧
      (∃ a, QuestionStatus.StatusForAnswerValue
          ⟨[⟨1, 10, 1⟩, ⟨2, 20, 2⟩, ⟨0, 0, 0⟩, ⟨255, 2550, 255⟩]⟩ AnswerValueSkipped = some a ∧
        ReportsBalance demoManager [2] (0 % 256) a AnswerValueSkipped) ∧
      (∃ a, QuestionStatus.StatusForAnswerValue
          ⟨[⟨1, 10, 1⟩, ⟨2, 20, 2⟩, ⟨0, 0, 0⟩, ⟨255, 2550, 255⟩]⟩ AnswerValueInvalid = some a ∧
        ReportsBalance demoManager [2] (0 % 256) a AnswerValueInvalid) ∧
      ∀ v ∈ question.QuestionAnswers.map (·.Value),
        ∃ a pre post, QuestionStatus.StatusForAnswerValue
            ⟨[⟨1, 10, 1⟩, ⟨2, 20, 2⟩, ⟨0, 0, 0⟩, ⟨255, 2550, 255⟩]⟩ v = some a ∧
          ReportsBalance demoManager [2] (0 % 256) a v ∧
          [(⟨1, 10, 1⟩ : AnswerStatus), ⟨2, 20, 2⟩, ⟨0, 0, 0⟩, ⟨255, 2550, 255⟩] =
            pre ++ a :: post ∧
          pre.length < question.QuestionAnswers.length ∧ ∀ b ∈ pre, b.Value ≠ v :=
  lookup_on_report demoDigest demoManager [2]
    { BallotQuestions := [⟨[⟨1⟩, ⟨2⟩]⟩], Status := fun _ => "holding" }
    { MilestoneIndex := 5, Status := "holding",
      Questions := [⟨[⟨1, 10, 1⟩, ⟨2, 20, 2⟩, ⟨0, 0, 0⟩, ⟨255, 2550, 255⟩]⟩],
      Checksum := "00010a00" }
    0 ⟨[⟨1, 10, 1⟩, ⟨2, 20, 2⟩, ⟨0, 0, 0⟩, ⟨255, 2550, 255⟩]⟩ (by rfl) (by rfl) (by rfl)

end participation
